import Mathlib

/-!
Verification development for the RAG plug-and-pull pipeline
(element categorizer, spatial caption/image matcher, association index,
resilient retry caller, batch summarizers).

The Python source is embedded shallowly:
* machine floats in the geometry code are modelled by exact rationals `ℚ`;
  the source compares square-rooted Euclidean distances, and since the square
  root is strictly monotone on nonnegative reals, the embedding compares
  squared distances, which selects the same candidates;
* Python `list` vs `tuple` containers are modelled explicitly (the key
  canonicalization code distinguishes them via `isinstance`);
* the external model boundary (`model.generate_content`) is an oracle
  `Nat → CallResult` indexed by the global call count; `base64.b64decode`
  is an abstract decoder parameter that may fail;
* logging, tqdm progress bars and mime-type selection are ignored: they do
  not influence any returned value.
-/

namespace RagPipeline

/-- A Python 2-D point, which in the source may be a `list [x, y]` or a
`tuple (x, y)`; the two are distinguishable (`tuple(p)` canonicalizes). -/
inductive PyPoint where
  | plist (x y : ℚ)
  | ptuple (x y : ℚ)
deriving DecidableEq

/-- `p[0]`. -/
def PyPoint.fst : PyPoint → ℚ
  | .plist x _ => x
  | .ptuple x _ => x

/-- `p[1]`. -/
def PyPoint.snd : PyPoint → ℚ
  | .plist _ y => y
  | .ptuple _ y => y

/-- `tuple(p)`: coerce a point to tuple form. -/
def canonPoint : PyPoint → PyPoint
  | .plist x y => .ptuple x y
  | .ptuple x y => .ptuple x y

/-- A Python coordinates value: a `list` of points or a `tuple` of points. -/
inductive Coords where
  | clist (pts : List PyPoint)
  | ctuple (pts : List PyPoint)
deriving DecidableEq

/-- Underlying point sequence of a coordinates value. -/
def Coords.pts : Coords → List PyPoint
  | .clist ps => ps
  | .ctuple ps => ps

/-- Python truthiness of a sequence: nonempty. -/
def Coords.truthy : Coords → Bool
  | .clist ps => !ps.isEmpty
  | .ctuple ps => !ps.isEmpty

/-- `isinstance(c, list) and len(c) > 0`. -/
def Coords.isNonemptyList : Coords → Bool
  | .clist ps => !ps.isEmpty
  | .ctuple _ => false

/-- The `metadata.coordinates` attribute: either an object exposing a
`.points` sequence (unstructured's `CoordinatesMetadata`) or a raw
sequence of points. -/
inductive CoordsAttr where
  | withPoints (points : Coords)
  | raw (c : Coords)
deriving DecidableEq

/-- `coords.points if hasattr(coords, 'points') else coords`. -/
def CoordsAttr.extract : CoordsAttr → Coords
  | .withPoints p => p
  | .raw c => c

/-- Element metadata; `none` models an absent attribute (`hasattr` false). -/
structure Metadata where
  page_number : Option Nat
  coordinates : Option CoordsAttr
  image_path : Option String
  text_as_html : String
deriving DecidableEq

/-- One parsed element from the unstructured front end.  `text` is
`str(element)`. -/
structure Element where
  category : String
  text : String
  metadata : Metadata
deriving DecidableEq

/-- The per-image dictionary handed to `find_closest_image`
(`images_for_closest_search` entries); `coordinates` has already gone
through the `.points` extraction. -/
structure ImgData where
  image_path : Option String
  page_number : Option Nat
  coordinates : Option Coords
deriving DecidableEq

/-- Python `min` over a nonempty list (the `[]` default is never used by
the guarded call sites). -/
def qlistMin : List ℚ → ℚ
  | [] => 0
  | x :: xs => xs.foldl min x

/-- Python `max` over a nonempty list. -/
def qlistMax : List ℚ → ℚ
  | [] => 0
  | x :: xs => xs.foldl max x

/-- Center of a bounding polygon: midpoint of the min/max X and min/max Y
of its points (src/image_processor.py lines 81-84 and 101-104). -/
def centerOf (ps : List PyPoint) : ℚ × ℚ :=
  ((qlistMin (ps.map PyPoint.fst) + qlistMax (ps.map PyPoint.fst)) / 2,
   (qlistMin (ps.map PyPoint.snd) + qlistMax (ps.map PyPoint.snd)) / 2)

/-- Squared Euclidean distance from the caption center `(cx, cy)` to the
candidate's center.  The source compares `(dx**2 + dy**2) ** 0.5` values;
square root is strictly monotone on nonnegative reals, so comparing the
squares makes exactly the same choices. -/
def distSqTo (cx cy : ℚ) (img : ImgData) : ℚ :=
  match img.coordinates with
  | some c =>
    let ctr := centerOf c.pts
    (cx - ctr.1) ^ 2 + (cy - ctr.2) ^ 2
  | none => 0

/-- The outer loop guard (src/image_processor.py line 96):
`img_data.get('page_number') == caption_page_number and img_data.get('coordinates')`. -/
def candTruthyOnPage (page : Nat) (img : ImgData) : Bool :=
  img.page_number == some page &&
    (match img.coordinates with
     | some c => c.truthy
     | none => false)

/-- The inner guard (line 100): coordinates are a nonempty Python list,
otherwise the candidate is skipped with `continue`. -/
def candListOk (img : ImgData) : Bool :=
  match img.coordinates with
  | some (.clist ps) => !ps.isEmpty
  | _ => false

/-- A candidate that can actually be selected by the search loop. -/
def candOk (page : Nat) (img : ImgData) : Bool :=
  candTruthyOnPage page img && candListOk img

/-- `distance < min_distance` where `min_distance` starts at `float('inf')`
(`none`). -/
def ltOpt (d : ℚ) : Option ℚ → Bool
  | none => true
  | some m => d < m

/-- The candidate scan of `find_closest_image` (lines 95-129): running
minimum distance and running best candidate, updated on strict decrease. -/
def searchClosest (page : Nat) (cx cy : ℚ) :
    List ImgData → Option ℚ → Option ImgData → Option ImgData
  | [], _, best => best
  | img :: rest, curMin, best =>
    if candTruthyOnPage page img && candListOk img then
      let d := distSqTo cx cy img
      if ltOpt d curMin then searchClosest page cx cy rest (some d) (some img)
      else searchClosest page cx cy rest curMin best
    else searchClosest page cx cy rest curMin best

/-- `find_closest_image(caption, images)` (src/image_processor.py 55-144).
Returns `none` when the caption lacks coordinates or page number, when the
caption's (`.points`-extracted) coordinates are not a nonempty Python list,
or when no candidate is ever selected. -/
def find_closest_image (caption : Element) (images : List ImgData) :
    Option ImgData :=
  match caption.metadata.coordinates, caption.metadata.page_number with
  | some cAttr, some page =>
    match cAttr.extract with
    | .clist [] => none
    | .clist (p :: ps) =>
      let ctr := centerOf (p :: ps)
      searchClosest page ctr.1 ctr.2 images none none
    | .ctuple _ => none
  | _, _ => none

/-! ### Association index: geometry keys and caption/image bundles -/

/-- A dictionary key `(page_number, coordinates)`. -/
abbrev GeomKey := Nat × Coords

/-- `tuple(map(tuple, c))`, the canonicalization used when building
`image_data_dict` keys in `convert_images_to_base64`
(src/image_processor.py lines 38-41). -/
def tupleOfTuples (c : Coords) : Coords :=
  .ctuple (c.pts.map canonPoint)

/-- Key-coordinate canonicalization in `generate_caption_image_page_number`
(lines 191-197 and 226-233, identical logic at both places): keep the value
when it is already a tuple, otherwise `tuple(map(tuple, c))`. -/
def coordsForKey (c : Coords) : Coords :=
  match c with
  | .ctuple ps => .ctuple ps
  | .clist ps => .ctuple (ps.map canonPoint)

/-- The key built for an image element in `convert_images_to_base64`:
`(element.metadata.page_number, tuple(map(tuple, element.metadata.coordinates.points)))`. -/
def base64StageKey (page : Nat) (points : Coords) : GeomKey :=
  (page, tupleOfTuples points)

/-- The bundle key an image element will receive in
`generate_caption_image_page_number`, when its metadata is present. -/
def elementImageKey (el : Element) : Option GeomKey :=
  match el.metadata.page_number, el.metadata.coordinates with
  | some p, some cAttr => some (p, coordsForKey cAttr.extract)
  | _, _ => none

/-- One entry of `caption_image_dict`. -/
structure Bundle where
  base64_data : String
  caption_text : String
  page_number : Nat
deriving DecidableEq

/-- `caption_image_dict`, as an insertion-ordered association list with
unique keys (a Python dict). -/
abbrev BundleDict := List (GeomKey × Bundle)

/-- Dictionary lookup. -/
def lookupKey (k : GeomKey) : BundleDict → Option Bundle
  | [] => none
  | kv :: rest => if kv.1 = k then some kv.2 else lookupKey k rest

/-- Python `d[k] = v`: overwrite in place when the key exists, else append. -/
def dictInsert (d : BundleDict) (k : GeomKey) (v : Bundle) : BundleDict :=
  if (lookupKey k d).isSome then
    d.map (fun kv => if kv.1 = k then (k, v) else kv)
  else d ++ [(k, v)]

/-- Construction of one `images_for_closest_search` entry (lines 175-182):
kept only when the element has page number and coordinates metadata, with
the `.points` extraction applied. -/
def mkImgData (el : Element) : Option ImgData :=
  match el.metadata.page_number, el.metadata.coordinates with
  | some p, some cAttr => some ⟨el.metadata.image_path, some p, some cAttr.extract⟩
  | _, _ => none

/-- Body of the `if closest_image:` block of the caption loop (lines
186-214): build the closest image's key; when the key has a base64 payload,
store a bundle with the caption's text, else drop the caption with a
warning. -/
def captionKeyInsert (b64 : GeomKey → Option String) (d : BundleDict)
    (caption : Element) (ci : ImgData) : BundleDict :=
  match ci.page_number, ci.coordinates with
  | some p, some c =>
    let k : GeomKey := (p, coordsForKey c)
    match b64 k with
    | some payload => dictInsert d k ⟨payload, caption.text, p⟩
    | none => d
  | _, _ => d

/-- One iteration of the caption loop (lines 170-218). -/
def captionStep (b64 : GeomKey → Option String) (imgsSearch : List ImgData)
    (d : BundleDict) (caption : Element) : BundleDict :=
  match find_closest_image caption imgsSearch with
  | none => d
  | some ci => captionKeyInsert b64 d caption ci

/-- One iteration of the orphan loop (lines 221-248): every image with
metadata whose key is not yet claimed gets an orphan bundle with empty
caption text and whatever payload `image_base64_dict` offers (else `""`). -/
def orphanStep (b64 : GeomKey → Option String) (d : BundleDict)
    (el : Element) : BundleDict :=
  match el.metadata.page_number, el.metadata.coordinates with
  | some p, some cAttr =>
    let k : GeomKey := (p, coordsForKey cAttr.extract)
    if (lookupKey k d).isSome then d
    else d ++ [(k, ⟨(b64 k).getD "", "", p⟩)]
  | _, _ => d

/-- `generate_caption_image_page_number(raw_pdf_elements, image_base64_dict)`
(src/image_processor.py 147-252). -/
def generate_caption_image_page_number (raw : List Element)
    (b64 : GeomKey → Option String) : BundleDict :=
  let images := raw.filter (fun el => el.category == "Image")
  let captions := raw.filter (fun el => el.category == "FigureCaption")
  let imgsSearch := images.filterMap mkImgData
  let d1 := captions.foldl (captionStep b64 imgsSearch) []
  images.foldl (orphanStep b64) d1

/-! ### Model boundary, resilient caller and batch summarizers -/

/-- Outcome of one `model.generate_content(...)` / `.text` evaluation.
`rateLimited` is `google.api_core.exceptions.ResourceExhausted`; its field
is the `retry_delay.seconds` hint when `hasattr(e, 'retry_delay') and
e.retry_delay` is truthy.  `otherError` is any other exception. -/
inductive CallResult where
  | success (text : String)
  | rateLimited (retryDelay : Option Nat)
  | otherError
deriving DecidableEq

/-- The external model as a deterministic trace: outcome of the n-th
`generate_content` call made by the process (0-indexed). -/
abbrev Oracle := Nat → CallResult

/-- `true` on any exception outcome. -/
def isFailure : CallResult → Bool
  | .success _ => false
  | _ => true

/-- The permanent-failure sentinel of the retry caller
(src/image_summarizer.py line 46). -/
def errorSentinel (t k : String) : String :=
  "Error summarizing " ++ t ++ " " ++ k ++ "."

/-- The exhausted-retries sentinel (line 49). -/
def exhaustedSentinel (t k : String) : String :=
  "Failed to summarize " ++ t ++ " " ++ k ++ " after multiple retries."

/-- Observable outcome of the retry caller: the returned string, whether it
came from the success branch, the sleeps performed, the number of
`generate_content` calls made, and the next global call index. -/
structure RetryOutcome where
  result : String
  ok : Bool
  sleeps : List Nat
  attempts : Nat
  nextCall : Nat
deriving DecidableEq

/-- The `while retries < max_retries` loop of
`make_llm_call_with_retry_multimodal` (src/image_summarizer.py 23-49).
`fuel = max_retries - retries`, which is exactly the remaining number of
loop iterations since `retries` increments only on `ResourceExhausted`.
On a rate limit the wait is `max(2 ** retries, hint)` with the freshly
incremented counter; the sleep happens even on the final failed attempt. -/
def retryLoop (o : Oracle) (t k : String) :
    Nat → Nat → Nat → List Nat → RetryOutcome
  | 0, retries, ci, sleeps =>
    ⟨exhaustedSentinel t k, false, sleeps.reverse, retries, ci⟩
  | fuel + 1, retries, ci, sleeps =>
    match o ci with
    | .success s => ⟨s, true, sleeps.reverse, retries + 1, ci + 1⟩
    | .otherError => ⟨errorSentinel t k, false, sleeps.reverse, retries + 1, ci + 1⟩
    | .rateLimited hint =>
      let r := retries + 1
      let wait := match hint with
        | none => 2 ^ r
        | some s => max (2 ^ r) s
      retryLoop o t k fuel r (ci + 1) (wait :: sleeps)

/-- `make_llm_call_with_retry_multimodal(model, parts, element_type,
element_key, max_retries)`, starting at global call index `startCall`. -/
def make_llm_call_with_retry_multimodal (o : Oracle) (startCall : Nat)
    (elementType elementKey : String) (maxRetries : Nat) : RetryOutcome :=
  retryLoop o elementType elementKey maxRetries 0 startCall []

/-- Per-item sentinel of the text/table loops
(src/text_table_summarizer.py lines 70 and 88):
`f"Error summarizing {kind}: {item[:100]}..."`. -/
def summarySentinel (kind item : String) : String :=
  "Error summarizing " ++ kind ++ ": " ++ item.take 100 ++ "..."

/-- What one text/table iteration appends for the call at index `n`. -/
def slotFor (o : Oracle) (kind : String) (n : Nat) (item : String) : String :=
  match o n with
  | .success s => s
  | _ => summarySentinel kind item

/-- One of the two summarization loops of `generate_table_text_summaries`
(they are textually identical up to the `kind` string): each item makes
exactly one `generate_content` call; any exception appends the sentinel and
bumps the error counter.  Returns (summaries, error count, next call index). -/
def summLoop (kind : String) (o : Oracle) :
    List String → Nat → Nat → List String × Nat × Nat
  | [], ci, errs => ([], errs, ci)
  | item :: rest, ci, errs =>
    match o ci with
    | .success s =>
      let r := summLoop kind o rest (ci + 1) errs
      (s :: r.1, r.2)
    | _ =>
      let r := summLoop kind o rest (ci + 1) (errs + 1)
      (summarySentinel kind item :: r.1, r.2)

/-- Aggregate result of `generate_table_text_summaries`. -/
structure BatchResult where
  text_summaries : List String
  table_summaries : List String
  text_errors : Nat
  table_errors : Nat
  calls : Nat
deriving DecidableEq

/-- `generate_table_text_summaries(texts, tables)`
(src/text_table_summarizer.py 16-95): the text loop runs first, then the
table loop continues on the same external model trace. -/
def generate_table_text_summaries (o : Oracle) (texts tables : List String) :
    BatchResult :=
  let rt := summLoop "text" o texts 0 0
  let rb := summLoop "table" o tables rt.2.2 0
  ⟨rt.1, rb.1, rt.2.1, rb.2.1, rb.2.2⟩

/-! #### Image batch -/

/-- One `caption_image_dict` item as consumed by `image_to_text_summarizer`;
`keyRepr` is the Python string rendering of the dictionary key, used only
inside log/sentinel strings. -/
structure ImgItem where
  keyRepr : String
  base64_data : String
  caption_text : String
  page_number : Nat
deriving DecidableEq

/-- Sentinel of the outer `except` branch (src/image_summarizer.py 113). -/
def procSentinel (it : ImgItem) : String :=
  "Error processing image with key " ++ it.keyRepr ++ "."

/-- The `element_key` string passed to the retry caller (line 102). -/
def imgElementKey (it : ImgItem) : String :=
  "page " ++ toString it.page_number ++ " (" ++ it.keyRepr ++ ")"

/-- `startsWithChars m l`: `l` starts with `m`. -/
def startsWithChars : List Char → List Char → Bool
  | [], _ => true
  | _ :: _, [] => false
  | a :: as, b :: bs => a == b && startsWithChars as bs

/-- `hasSubChars m l`: `m` occurs contiguously inside `l`. -/
def hasSubChars (marker : List Char) : List Char → Bool
  | [] => marker.isEmpty
  | a :: rest => startsWithChars marker (a :: rest) || hasSubChars marker rest

/-- Python's `marker in s` substring test. -/
def containsSub (s marker : String) : Bool :=
  hasSubChars marker.data s.data

/-- The failure test applied to each image summary (line 105):
`"Error summarizing image" in summary or "Failed to summarize image" in summary`. -/
def markerHit (s : String) : Bool :=
  containsSub s "Error summarizing image" || containsSub s "Failed to summarize image"

/-- Abstraction of `base64.b64decode`; `none` models a raised decode error
(caught by the outer `except`, which yields the processing sentinel). -/
abbrev Decoder := String → Option (List Nat)

/-- The item loop of `image_to_text_summarizer` (lines 73-113).  Each slot
is returned together with the flag recording whether the retry caller
returned through its success branch (an observable annotation the Python
code does not keep; the public function below projects it away).
Returns (annotated slots, failure counter, next call index). -/
def imgLoop (o : Oracle) (dec : Decoder) :
    List ImgItem → Nat → Nat → List (String × Bool) × Nat × Nat
  | [], ci, cnt => ([], cnt, ci)
  | it :: rest, ci, cnt =>
    match dec it.base64_data with
    | none =>
      let r := imgLoop o dec rest ci (cnt + 1)
      ((procSentinel it, false) :: r.1, r.2)
    | some _ =>
      let rc := make_llm_call_with_retry_multimodal o ci "image" (imgElementKey it) 5
      let cnt' := if markerHit rc.result then cnt + 1 else cnt
      let r := imgLoop o dec rest rc.nextCall cnt'
      ((rc.result, rc.ok) :: r.1, r.2)

/-- `image_to_text_summarizer(caption_image_dict)`: the summary list (in
dict insertion order) and the reported exception counter. -/
def image_to_text_summarizer (o : Oracle) (dec : Decoder)
    (items : List ImgItem) : List String × Nat :=
  let r := imgLoop o dec items 0 0
  (r.1.map Prod.fst, r.2.1)

/-! ### Element categorizer -/

/-- The text-like categories (src/element_categorizer.py lines 38 and 49). -/
def textCategories : List String :=
  ["CompositeElement", "NarrativeText", "ListItem", "UncategorizedText"]

/-- `element.category in [...]`. -/
def isTextCategory (el : Element) : Bool :=
  textCategories.contains el.category

/-- The page filter (line 31): skip when `pages_to_be_extracted > 0 and
hasattr(metadata, 'page_number') and page_number > pages_to_be_extracted`.
The bound is an `Int` so that nonpositive values mean "no limit". -/
def retainedB (pages : Int) (el : Element) : Bool :=
  !(decide (0 < pages) &&
    (match el.metadata.page_number with
     | some p => decide (pages < (p : Int))
     | none => false))

/-- The string appended for a `Table` element at index `i` of the original
stream (lines 43-59): when `i > 0` and the immediately preceding original
element is text-like with nonempty text shorter than 200 characters, that
text plus a blank line is prepended to the table's HTML. -/
def tableString (raw : List Element) (i : Nat) (el : Element) : String :=
  let prevText :=
    if 0 < i then
      match raw.get? (i - 1) with
      | some prev => if isTextCategory prev then prev.text else ""
      | none => ""
    else ""
  if !(prevText == "") && decide (prevText.length < 200) then
    prevText ++ "\n\n" ++ el.metadata.text_as_html
  else el.metadata.text_as_html

/-- The categorization loop over the indexed element stream: retained
text-like elements are collected verbatim, retained tables via
`tableString`, everything else is ignored. -/
def catLoop (raw : List Element) (pages : Int) :
    List (Nat × Element) → List String × List String
  | [] => ([], [])
  | (i, el) :: rest =>
    let r := catLoop raw pages rest
    if !retainedB pages el then r
    else if isTextCategory el then (el.text :: r.1, r.2)
    else if el.category == "Table" then (r.1, tableString raw i el :: r.2)
    else r

/-- `categorize_elements(raw_pdf_elements, pages_to_be_extracted)`
(src/element_categorizer.py 7-64), returning `(texts, tables_html)`. -/
def categorize_elements (raw : List Element) (pages : Int) :
    List String × List String :=
  catLoop raw pages raw.enum

/-! ### Lemmas about the candidate search -/

/-- Minimum of a list of rationals, `none` on the empty list. -/
def minOpt : List ℚ → Option ℚ
  | [] => none
  | d :: ds =>
    match minOpt ds with
    | none => some d
    | some m => some (min d m)

lemma minOpt_eq_none_iff (l : List ℚ) : minOpt l = none ↔ l = [] := by
  cases l with
  | nil => simp [minOpt]
  | cons d ds =>
    simp only [minOpt]
    cases minOpt ds <;> simp

lemma minOpt_mem : ∀ {l : List ℚ} {m : ℚ}, minOpt l = some m → m ∈ l := by
  intro l
  induction l with
  | nil => intro m h; simp [minOpt] at h
  | cons d ds ih =>
    intro m h
    simp only [minOpt] at h
    cases hds : minOpt ds with
    | none => rw [hds] at h; simp at h; simp [h]
    | some m' =>
      rw [hds] at h
      simp at h
      rcases min_choice d m' with hmin | hmin
      · rw [hmin] at h; simp [← h]
      · rw [hmin] at h; exact List.mem_cons_of_mem _ (h ▸ ih hds)

lemma minOpt_le : ∀ {l : List ℚ} {m : ℚ}, minOpt l = some m →
    ∀ x ∈ l, m ≤ x := by
  intro l
  induction l with
  | nil => intro m h; simp [minOpt] at h
  | cons d ds ih =>
    intro m h x hx
    simp only [minOpt] at h
    cases hds : minOpt ds with
    | none =>
      rw [hds] at h; simp at h
      rcases List.mem_cons.mp hx with hxd | hxds
      · exact le_of_eq (h ▸ hxd.symm)
      · exact absurd hds ((not_iff_not.mpr (minOpt_eq_none_iff ds)).mpr
          (List.ne_nil_of_mem hxds))
    | some m' =>
      rw [hds] at h; simp at h
      rcases List.mem_cons.mp hx with hxd | hxds
      · calc m = min d m' := h.symm
          _ ≤ d := min_le_left _ _
          _ = x := hxd.symm
      · calc m = min d m' := h.symm
          _ ≤ m' := min_le_right _ _
          _ ≤ x := ih hds x hxds

lemma minOpt_eq_of : ∀ {l : List ℚ} {m : ℚ}, m ∈ l → (∀ x ∈ l, m ≤ x) →
    minOpt l = some m := by
  intro l
  induction l with
  | nil => intro m h; simp at h
  | cons d ds ih =>
    intro m hm hle
    simp only [minOpt]
    cases hds : minOpt ds with
    | none =>
      have : ds = [] := (minOpt_eq_none_iff ds).mp hds
      subst this
      simp at hm
      simp [hm]
    | some m' =>
      have hm'mem : m' ∈ ds := minOpt_mem hds
      have hmm' : m ≤ m' := hle m' (List.mem_cons_of_mem _ hm'mem)
      have hmd : m ≤ d := hle d (List.mem_cons_self _ _)
      rcases List.mem_cons.mp hm with h | h
      · -- m = d; min d m' = d since d = m ≤ m'
        subst h
        simp [min_eq_left hmm']
      · have := minOpt_le hds m h
        have hm'm : m' = m := le_antisymm this hmm'
        subst hm'm
        simp [min_eq_right hmd]

/-- Distances of the selectable candidates of `l` that beat `curMin`. -/
def distsBelow (page : Nat) (cx cy : ℚ) (curMin : Option ℚ)
    (l : List ImgData) : List ℚ :=
  ((l.filter (candOk page)).map (distSqTo cx cy)).filter (fun d => ltOpt d curMin)

lemma ltOpt_trans {d m : ℚ} {curMin : Option ℚ} (h1 : m < d)
    (h2 : ltOpt d curMin = true) : ltOpt m curMin = true := by
  cases curMin with
  | none => rfl
  | some c => simp [ltOpt] at h2 ⊢; exact lt_trans h1 h2

lemma ltOpt_ne {d m : ℚ} {curMin : Option ℚ} (h1 : ltOpt m curMin = true)
    (h2 : ltOpt d curMin = false) : m ≠ d := by
  cases curMin with
  | none => simp [ltOpt] at h2
  | some c =>
    simp [ltOpt] at h1 h2
    exact ne_of_lt (lt_of_lt_of_le h1 h2)

/-- The running search computes the first candidate attaining the minimal
distance among selectable candidates that beat the incoming minimum, and
leaves `best` untouched when no candidate does. -/
lemma searchClosest_spec (page : Nat) (cx cy : ℚ) :
    ∀ (l : List ImgData) (curMin : Option ℚ) (best : Option ImgData),
    searchClosest page cx cy l curMin best =
      match minOpt (distsBelow page cx cy curMin l) with
      | none => best
      | some m => (l.filter (candOk page)).find?
          (fun i => decide (distSqTo cx cy i = m)) := by
  intro l
  induction l with
  | nil => intro curMin best; simp [searchClosest, distsBelow, minOpt]
  | cons img rest ih =>
    intro curMin best
    by_cases hOk : (candTruthyOnPage page img && candListOk img) = true
    · have hcand : candOk page img = true := hOk
      set d := distSqTo cx cy img with hd
      by_cases hlt : ltOpt d curMin = true
      · -- new best
        have hL : searchClosest page cx cy (img :: rest) curMin best =
            searchClosest page cx cy rest (some d) (some img) := by
          simp [searchClosest, hOk, hlt, hd]
        rw [hL, ih]
        have hBcons : distsBelow page cx cy curMin (img :: rest) =
            d :: distsBelow page cx cy curMin rest := by
          simp [distsBelow, hcand, hlt, hd]
        rw [hBcons]
        cases hBd : minOpt (distsBelow page cx cy (some d) rest) with
        | none =>
          -- nothing in rest beats d: the head is the first minimum
          have hEmpty : distsBelow page cx cy (some d) rest = [] :=
            (minOpt_eq_none_iff _).mp hBd
          have hge : ∀ x ∈ d :: distsBelow page cx cy curMin rest, d ≤ x := by
            intro x hx
            rcases List.mem_cons.mp hx with h | h
            · exact le_of_eq h.symm
            · by_contra hcon
              push_neg at hcon
              have hxmem : x ∈ (rest.filter (candOk page)).map (distSqTo cx cy) :=
                (List.mem_filter.mp h).1
              have : x ∈ distsBelow page cx cy (some d) rest := by
                refine List.mem_filter.mpr ⟨hxmem, ?_⟩
                simp [ltOpt, hcon]
              rw [hEmpty] at this
              simp at this
          have hm0 : minOpt (d :: distsBelow page cx cy curMin rest) = some d :=
            minOpt_eq_of (List.mem_cons_self _ _) hge
          rw [hm0]
          have hfilter : (img :: rest).filter (candOk page) =
              img :: rest.filter (candOk page) := by simp [hcand]
          rw [hfilter]
          simp [List.find?]
        | some m =>
          have hmmem := minOpt_mem hBd
          have hmlt : m < d := by
            have := (List.mem_filter.mp hmmem).2
            simpa [ltOpt] using this
          have hmdists : m ∈ (rest.filter (candOk page)).map (distSqTo cx cy) :=
            (List.mem_filter.mp hmmem).1
          have hmB : m ∈ d :: distsBelow page cx cy curMin rest := by
            refine List.mem_cons_of_mem _ (List.mem_filter.mpr ⟨hmdists, ?_⟩)
            exact ltOpt_trans hmlt hlt
          have hbound : ∀ x ∈ d :: distsBelow page cx cy curMin rest, m ≤ x := by
            intro x hx
            rcases List.mem_cons.mp hx with h | h
            · exact le_of_lt (h ▸ hmlt)
            · have hxmem := (List.mem_filter.mp h).1
              by_cases hxd : x < d
              · refine minOpt_le hBd x (List.mem_filter.mpr ⟨hxmem, ?_⟩)
                simp [ltOpt, hxd]
              · push_neg at hxd
                exact le_trans (le_of_lt hmlt) hxd
          have hm0 : minOpt (d :: distsBelow page cx cy curMin rest) = some m :=
            minOpt_eq_of hmB hbound
          rw [hm0]
          have hfilter : (img :: rest).filter (candOk page) =
              img :: rest.filter (candOk page) := by simp [hcand]
          rw [hfilter]
          have hne : ¬ (distSqTo cx cy img = m) := by
            rw [← hd]; exact (ne_of_gt hmlt)
          simp [List.find?, hne]
      · -- head not better than the running minimum
        have hlt' : ltOpt d curMin = false := by
          simpa using hlt
        have hL : searchClosest page cx cy (img :: rest) curMin best =
            searchClosest page cx cy rest curMin best := by
          simp [searchClosest, hOk, hlt', hd]
        rw [hL, ih]
        have hBsame : distsBelow page cx cy curMin (img :: rest) =
            distsBelow page cx cy curMin rest := by
          simp [distsBelow, hcand, hlt', hd]
        rw [hBsame]
        cases hB : minOpt (distsBelow page cx cy curMin rest) with
        | none => rfl
        | some m =>
          have hmlt : ltOpt m curMin = true := by
            have := (List.mem_filter.mp (minOpt_mem hB)).2
            simpa using this
          have hfilter : (img :: rest).filter (candOk page) =
              img :: rest.filter (candOk page) := by simp [hcand]
          rw [hfilter]
          have hne : ¬ (distSqTo cx cy img = m) := by
            rw [← hd]
            exact fun h => (ltOpt_ne hmlt hlt') h.symm
          simp [List.find?, hne]
    · -- head is skipped
      have hcand : candOk page img = false := by
        simpa [candOk] using hOk
      have hL : searchClosest page cx cy (img :: rest) curMin best =
          searchClosest page cx cy rest curMin best := by
        simp [searchClosest, hOk]
      have hBsame : distsBelow page cx cy curMin (img :: rest) =
          distsBelow page cx cy curMin rest := by
        simp [distsBelow, hcand]
      have hfilter : (img :: rest).filter (candOk page) =
          rest.filter (candOk page) := by simp [hcand]
      rw [hL, ih, hBsame, hfilter]

/-- Any selected candidate was the incoming `best` or a selectable member
of the scanned list. -/
lemma searchClosest_ok (page : Nat) (cx cy : ℚ) :
    ∀ (l : List ImgData) (curMin : Option ℚ) (best : Option ImgData)
      (img : ImgData),
    searchClosest page cx cy l curMin best = some img →
    best = some img ∨ (img ∈ l ∧ candOk page img = true) := by
  intro l
  induction l with
  | nil => intro curMin best img h; exact Or.inl (by simpa [searchClosest] using h)
  | cons hd rest ih =>
    intro curMin best img h
    by_cases hOk : (candTruthyOnPage page hd && candListOk hd) = true
    · by_cases hlt : ltOpt (distSqTo cx cy hd) curMin = true
      · rw [show searchClosest page cx cy (hd :: rest) curMin best =
            searchClosest page cx cy rest (some (distSqTo cx cy hd)) (some hd) by
              simp [searchClosest, hOk, hlt]] at h
        rcases ih _ _ _ h with hbest | ⟨hmem, hok⟩
        · have : hd = img := by simpa using hbest
          exact Or.inr ⟨this ▸ List.mem_cons_self _ _, this ▸ hOk⟩
        · exact Or.inr ⟨List.mem_cons_of_mem _ hmem, hok⟩
      · rw [show searchClosest page cx cy (hd :: rest) curMin best =
            searchClosest page cx cy rest curMin best by
              simp [searchClosest, hOk, hlt]] at h
        rcases ih _ _ _ h with hbest | ⟨hmem, hok⟩
        · exact Or.inl hbest
        · exact Or.inr ⟨List.mem_cons_of_mem _ hmem, hok⟩
    · rw [show searchClosest page cx cy (hd :: rest) curMin best =
          searchClosest page cx cy rest curMin best by
            simp [searchClosest, hOk]] at h
      rcases ih _ _ _ h with hbest | ⟨hmem, hok⟩
      · exact Or.inl hbest
      · exact Or.inr ⟨List.mem_cons_of_mem _ hmem, hok⟩


lemma find_closest_image_no_coords (caption : Element) (images : List ImgData)
    (hc : caption.metadata.coordinates = none) :
    find_closest_image caption images = none := by
  unfold find_closest_image
  rw [hc]

lemma find_closest_image_no_page (caption : Element) (images : List ImgData)
    (hp : caption.metadata.page_number = none) :
    find_closest_image caption images = none := by
  unfold find_closest_image
  rw [hp]
  rcases caption.metadata.coordinates with _ | cAttr <;> rfl

/-- Unfolding of `find_closest_image` once the caption's attributes are known. -/
lemma find_closest_image_eq (caption : Element) (cAttr : CoordsAttr)
    (page : Nat) (images : List ImgData)
    (hc : caption.metadata.coordinates = some cAttr)
    (hp : caption.metadata.page_number = some page) :
    find_closest_image caption images =
      (match cAttr.extract with
       | .clist [] => none
       | .clist (p :: ps) =>
         searchClosest page (centerOf (p :: ps)).1 (centerOf (p :: ps)).2
           images none none
       | .ctuple _ => none) := by
  unfold find_closest_image
  rw [hc, hp]

lemma searchClosest_all_skip (page : Nat) (cx cy : ℚ) (l : List ImgData)
    (curMin : Option ℚ) (best : Option ImgData)
    (h : ∀ img ∈ l, candOk page img = false) :
    searchClosest page cx cy l curMin best = best := by
  rw [searchClosest_spec]
  have hfil : l.filter (candOk page) = [] := by
    rw [List.filter_eq_nil_iff]
    intro a ha
    simp [h a ha]
  simp [distsBelow, hfil, minOpt]

lemma searchClosest_filter_page (page : Nat) (cx cy : ℚ) :
    ∀ (l : List ImgData) (curMin : Option ℚ) (best : Option ImgData),
    searchClosest page cx cy l curMin best =
      searchClosest page cx cy
        (l.filter (fun i => i.page_number == some page)) curMin best := by
  intro l
  induction l with
  | nil => intro curMin best; rfl
  | cons img rest ih =>
    intro curMin best
    by_cases hpg : (img.page_number == some page) = true
    · have hfil : (img :: rest).filter (fun i => i.page_number == some page) =
          img :: rest.filter (fun i => i.page_number == some page) := by
        simp only [List.filter_cons, hpg, if_true]
      rw [hfil]
      simp only [searchClosest]
      by_cases hOk : (candTruthyOnPage page img && candListOk img) = true
      · simp only [if_pos hOk]
        by_cases hlt : ltOpt (distSqTo cx cy img) curMin = true
        · simp only [if_pos hlt]
          exact ih _ _
        · simp only [if_neg hlt]
          exact ih _ _
      · simp only [if_neg hOk]
        exact ih _ _
    · have hfil : (img :: rest).filter (fun i => i.page_number == some page) =
          rest.filter (fun i => i.page_number == some page) := by
        simp only [List.filter_cons, hpg]
        simp
      have hOk : ¬ ((candTruthyOnPage page img && candListOk img) = true) := by
        intro hcon
        simp only [Bool.and_eq_true] at hcon
        have h1 := hcon.1
        unfold candTruthyOnPage at h1
        simp only [Bool.and_eq_true] at h1
        exact hpg h1.1
      rw [hfil]
      conv_lhs => rw [searchClosest]
      rw [if_neg hOk]
      exact ih _ _

/-- C2: `find_closest_image` computes the caption's center as the midpoint
of the min/max X and min/max Y of its polygon points, computes every
selectable same-page candidate's center identically, and returns the
candidate of minimum Euclidean center distance, ties resolving to the
first-encountered candidate in input order (`List.find?` of the minimal
squared distance over the selectable candidates, in order). -/
theorem find_closest_nearest_neighbor
    (caption : Element) (cAttr : CoordsAttr) (page : Nat)
    (p : PyPoint) (ps : List PyPoint) (images : List ImgData)
    (hc : caption.metadata.coordinates = some cAttr)
    (hp : caption.metadata.page_number = some page)
    (he : cAttr.extract = .clist (p :: ps)) :
    find_closest_image caption images =
      (let cx := (qlistMin ((p :: ps).map PyPoint.fst) +
                  qlistMax ((p :: ps).map PyPoint.fst)) / 2
       let cy := (qlistMin ((p :: ps).map PyPoint.snd) +
                  qlistMax ((p :: ps).map PyPoint.snd)) / 2
       let cands := images.filter (candOk page)
       match minOpt (cands.map (distSqTo cx cy)) with
       | none => none
       | some m => cands.find? (fun i => decide (distSqTo cx cy i = m))) := by
  rw [find_closest_image_eq caption cAttr page images hc hp, he]
  show searchClosest page (centerOf (p :: ps)).1 (centerOf (p :: ps)).2
      images none none = _
  rw [searchClosest_spec]
  have hdb : distsBelow page (centerOf (p :: ps)).1 (centerOf (p :: ps)).2
      none images =
      (images.filter (candOk page)).map
        (distSqTo (centerOf (p :: ps)).1 (centerOf (p :: ps)).2) := by
    simp [distsBelow, ltOpt]
  rw [hdb]
  rfl

/-- C3: candidates on pages other than the caption's page never influence
the result (hard filter), and when zero candidates share the caption's page
the result is `none`, however near another-page candidate may be in raw
coordinates. -/
theorem find_closest_page_isolation (caption : Element) (images : List ImgData) :
    ((∀ img ∈ images,
        (match caption.metadata.page_number with
         | some p => img.page_number ≠ some p
         | none => True)) →
      find_closest_image caption images = none)
    ∧ (∀ page, caption.metadata.page_number = some page →
        find_closest_image caption images =
          find_closest_image caption
            (images.filter (fun i => i.page_number == some page))) := by
  constructor
  · intro h
    cases hc : caption.metadata.coordinates with
    | none => exact find_closest_image_no_coords _ _ hc
    | some cAttr =>
      cases hp : caption.metadata.page_number with
      | none => exact find_closest_image_no_page _ _ hp
      | some page =>
        rw [find_closest_image_eq caption cAttr page images hc hp]
        cases he : cAttr.extract with
        | ctuple ps => rfl
        | clist ps =>
          cases ps with
          | nil => rfl
          | cons p ps' =>
            apply searchClosest_all_skip
            intro img hmem
            have hne : img.page_number ≠ some page := by
              have := h img hmem
              rw [hp] at this
              exact this
            simp [candOk, candTruthyOnPage, hne]
  · intro page hp
    cases hc : caption.metadata.coordinates with
    | none =>
      rw [find_closest_image_no_coords _ _ hc, find_closest_image_no_coords _ _ hc]
    | some cAttr =>
      rw [find_closest_image_eq caption cAttr page images hc hp,
        find_closest_image_eq caption cAttr page _ hc hp]
      cases he : cAttr.extract with
      | ctuple ps => rfl
      | clist ps =>
        cases ps with
        | nil => rfl
        | cons p ps' => exact searchClosest_filter_page _ _ _ _ _ _

/-- C10: a caption whose coordinates are present but not a nonempty Python
list (for instance the canonical tuple-of-tuples form, or an empty list)
makes `find_closest_image` return `none` even when selectable same-page
candidates exist; and a returned candidate always has coordinates that are
a nonempty Python list, so a malformed candidate is never returned.  (All
embedded functions are total, so no exception can escape.) -/
theorem find_closest_malformed_coords :
    (∀ (caption : Element) (cAttr : CoordsAttr) (images : List ImgData),
       caption.metadata.coordinates = some cAttr →
       cAttr.extract.isNonemptyList = false →
       find_closest_image caption images = none)
    ∧ (∀ (caption : Element) (images : List ImgData) (img : ImgData),
       find_closest_image caption images = some img →
       ∃ ps, img.coordinates = some (.clist ps) ∧ ps ≠ []) := by
  constructor
  · intro caption cAttr images hc hbad
    cases hp : caption.metadata.page_number with
    | none => exact find_closest_image_no_page _ _ hp
    | some page =>
      rw [find_closest_image_eq caption cAttr page images hc hp]
      cases he : cAttr.extract with
      | ctuple ps => rfl
      | clist ps =>
        cases ps with
        | nil => rfl
        | cons p ps' =>
          rw [he] at hbad
          simp [Coords.isNonemptyList] at hbad
  · intro caption images img h
    cases hc : caption.metadata.coordinates with
    | none => rw [find_closest_image_no_coords _ _ hc] at h; exact absurd h (by simp)
    | some cAttr =>
      cases hp : caption.metadata.page_number with
      | none => rw [find_closest_image_no_page _ _ hp] at h; exact absurd h (by simp)
      | some page =>
        rw [find_closest_image_eq caption cAttr page images hc hp] at h
        cases he : cAttr.extract with
        | ctuple ps => rw [he] at h; exact absurd h (by simp)
        | clist ps =>
          rw [he] at h
          cases ps with
          | nil => exact absurd h (by simp)
          | cons p ps' =>
            simp only [] at h
            rcases searchClosest_ok _ _ _ _ _ _ _ h with hbest | ⟨_, hok⟩
            · exact absurd hbest (by simp)
            · have hlist : candListOk img = true := by
                simp only [candOk, Bool.and_eq_true] at hok
                exact hok.2
              unfold candListOk at hlist
              cases hco : img.coordinates with
              | none => rw [hco] at hlist; simp at hlist
              | some c =>
                cases c with
                | ctuple qs => rw [hco] at hlist; simp at hlist
                | clist qs =>
                  rw [hco] at hlist
                  refine ⟨qs, rfl, ?_⟩
                  cases qs with
                  | nil => simp at hlist
                  | cons a as => simp
/-- Caption with polygon corners (8,8) and (10,10), hence center (9,9). -/
def exCaption : Element :=
  ⟨"FigureCaption", "cap",
   ⟨some 1, some (.raw (.clist [.plist 8 8, .plist 10 10])), none, ""⟩⟩

/-- Image centered at (0,0). -/
def exImg0 : ImgData := ⟨none, some 1, some (.clist [.plist (-1) (-1), .plist 1 1])⟩

/-- Image centered at (10,10). -/
def exImg1 : ImgData := ⟨none, some 1, some (.clist [.plist 9 9, .plist 11 11])⟩

/-- Image centered at (100,100). -/
def exImg2 : ImgData := ⟨none, some 1, some (.clist [.plist 99 99, .plist 101 101])⟩

/-- Witness for C2: for same-page image centers (0,0), (10,10), (100,100)
and a caption centered at (9,9), the image centered at (10,10) is returned. -/
theorem find_closest_nearest_neighbor_witness :
    find_closest_image exCaption [exImg0, exImg1, exImg2] = some exImg1 := by
  have h := find_closest_nearest_neighbor exCaption
    (.raw (.clist [.plist 8 8, .plist 10 10])) 1 (.plist 8 8) [.plist 10 10]
    [exImg0, exImg1, exImg2] rfl rfl rfl
  rw [h]
  norm_num [exCaption, exImg0, exImg1, exImg2, qlistMin, qlistMax, distSqTo,
    candOk, candTruthyOnPage, candListOk, centerOf, Coords.pts, minOpt,
    List.filter, List.find?, ltOpt, Coords.truthy, PyPoint.fst, PyPoint.snd,
    min_def]

/-- Caption on page 1 centered at (0,0). -/
def exCapIso : Element :=
  ⟨"FigureCaption", "c", ⟨some 1, some (.raw (.clist [.plist 0 0])), none, ""⟩⟩

/-- Image on page 2, geometrically at distance 0 from the caption. -/
def exImgOtherPage : ImgData := ⟨none, some 2, some (.clist [.plist 0 0])⟩

/-- Witness for C3: the only candidate is on another page at raw distance 0,
yet the result is `none`. -/
theorem find_closest_page_isolation_witness :
    find_closest_image exCapIso [exImgOtherPage] = none := by
  refine (find_closest_page_isolation exCapIso [exImgOtherPage]).1 ?_
  intro img hmem
  rw [List.mem_singleton] at hmem
  subst hmem
  show exImgOtherPage.page_number ≠ some 1
  decide

/-- Caption whose coordinates are present but in tuple form. -/
def exCapTuple : Element :=
  ⟨"FigureCaption", "c", ⟨some 1, some (.raw (.ctuple [.ptuple 0 0])), none, ""⟩⟩

/-- Witness for C10: a caption whose coordinates are a (nonempty) tuple is
rejected even though a selectable same-page image exists. -/
theorem find_closest_malformed_coords_witness :
    find_closest_image exCapTuple [exImg1] = none :=
  find_closest_malformed_coords.1 exCapTuple (.raw (.ctuple [.ptuple 0 0]))
    [exImg1] rfl rfl

/-- C6: two elements with geometrically identical bounding boxes, one
supplied as a list-of-lists and one as a tuple-of-tuples, receive equal
GeometryKeys, both under the base64-encoding stage canonicalization
(`tuple(map(tuple, .))`) and under the caption/orphan-stage canonicalization
(convert only when not already a tuple), so lookups across the two stages
agree on the same visual element. -/
theorem geometry_key_canonicalization (page : Nat) (pts : List (ℚ × ℚ)) :
    ((page, coordsForKey (Coords.clist (pts.map (fun q => PyPoint.plist q.1 q.2)))) : GeomKey)
      = (page, coordsForKey (Coords.ctuple (pts.map (fun q => PyPoint.ptuple q.1 q.2))))
    ∧ base64StageKey page (Coords.clist (pts.map (fun q => PyPoint.plist q.1 q.2)))
      = (page, coordsForKey (Coords.ctuple (pts.map (fun q => PyPoint.ptuple q.1 q.2))))
    ∧ base64StageKey page (Coords.ctuple (pts.map (fun q => PyPoint.ptuple q.1 q.2)))
      = (page, coordsForKey (Coords.ctuple (pts.map (fun q => PyPoint.ptuple q.1 q.2)))) := by
  refine ⟨?_, ?_, ?_⟩ <;>
    simp [coordsForKey, base64StageKey, tupleOfTuples, Coords.pts,
      List.map_map, Function.comp, canonPoint]

/-! ### Resilient caller: backoff behavior -/

/-- Oracle that rate-limits every call, with a large server hint on the
first call only. -/
def hintCexOracle : Oracle :=
  fun n => .rateLimited (if n = 0 then some 100 else none)

/-- Counterexample to C5 as stated: with `max_retries = 5` and a rate-limit
error on every invocation, the sleep sequence is `[100, 4, 8, 16, 32]` when
the first error carries a server hint of 100 seconds: each sleep is
`max(2^attempt, hint)`, but successive sleeps are NOT non-decreasing
(100 is followed by 4). -/
theorem retry_sleeps_not_monotone_cex :
    (make_llm_call_with_retry_multimodal hintCexOracle 0 "image" "k" 5).sleeps
      = [100, 4, 8, 16, 32]
    ∧ ¬ List.Chain' (fun a b => a ≤ b)
        (make_llm_call_with_retry_multimodal hintCexOracle 0 "image" "k" 5).sleeps := by
  constructor
  · rfl
  · intro h
    have : (100 : Nat) ≤ 4 := by
      have e : (make_llm_call_with_retry_multimodal hintCexOracle 0 "image" "k" 5).sleeps
          = [100, 4, 8, 16, 32] := rfl
      rw [e] at h
      exact (List.chain'_cons.mp h).1
    omega

/-- C5 (amended): for the retry caller with `max_retries = 5` and an
operation that raises a rate-limit error on every invocation, exactly 5
attempts are made; the caller returns the distinguishable exhausted-retries
sentinel through its failure path (and, being a total function, never
raises); each sleep is `max(2^attempt, server_hint)` with the hint taking
precedence only when larger; and the sleeps are non-decreasing whenever no
server hint is present (an early large hint can break monotonicity). -/
theorem retry_backoff_bound (hint : Nat → Option Nat) (t k : String) :
    (make_llm_call_with_retry_multimodal (fun n => .rateLimited (hint n)) 0 t k 5).attempts = 5
    ∧ (make_llm_call_with_retry_multimodal (fun n => .rateLimited (hint n)) 0 t k 5).result
        = exhaustedSentinel t k
    ∧ (make_llm_call_with_retry_multimodal (fun n => .rateLimited (hint n)) 0 t k 5).ok = false
    ∧ (make_llm_call_with_retry_multimodal (fun n => .rateLimited (hint n)) 0 t k 5).sleeps
        = (List.range 5).map (fun i =>
            match hint i with
            | none => 2 ^ (i + 1)
            | some s => max (2 ^ (i + 1)) s)
    ∧ ((∀ i, i < 5 → hint i = none) →
        List.Chain' (fun a b => a ≤ b)
          (make_llm_call_with_retry_multimodal (fun n => .rateLimited (hint n)) 0 t k 5).sleeps) := by
  refine ⟨rfl, rfl, rfl, rfl, ?_⟩
  intro h
  have e : (make_llm_call_with_retry_multimodal (fun n => .rateLimited (hint n)) 0 t k 5).sleeps
      = [2, 4, 8, 16, 32] := by
    have e4 : (make_llm_call_with_retry_multimodal (fun n => .rateLimited (hint n)) 0 t k 5).sleeps
        = (List.range 5).map (fun i =>
            match hint i with
            | none => 2 ^ (i + 1)
            | some s => max (2 ^ (i + 1)) s) := rfl
    rw [e4]
    have hr : List.range 5 = [0, 1, 2, 3, 4] := rfl
    rw [hr]
    simp only [List.map_cons, List.map_nil]
    rw [h 0 (by norm_num), h 1 (by norm_num), h 2 (by norm_num),
      h 3 (by norm_num), h 4 (by norm_num)]
    norm_num
  rw [e]
  refine List.Chain'.cons (by norm_num) ?_
  refine List.Chain'.cons (by norm_num) ?_
  refine List.Chain'.cons (by norm_num) ?_
  refine List.Chain'.cons (by norm_num) ?_
  exact List.chain'_singleton _

/-- Witness for the amended C5 at the hint-free oracle: 5 attempts, the
exhausted sentinel, and non-decreasing sleeps `[2, 4, 8, 16, 32]`. -/
theorem retry_backoff_bound_witness :
    (make_llm_call_with_retry_multimodal
        (fun n => .rateLimited ((fun _ => none) n)) 0 "image" "w" 5).attempts = 5
    ∧ (make_llm_call_with_retry_multimodal
        (fun n => .rateLimited ((fun _ => none) n)) 0 "image" "w" 5).result
        = exhaustedSentinel "image" "w"
    ∧ List.Chain' (fun a b => a ≤ b)
        (make_llm_call_with_retry_multimodal
          (fun n => .rateLimited ((fun _ => none) n)) 0 "image" "w" 5).sleeps :=
  ⟨(retry_backoff_bound (fun _ => none) "image" "w").1,
   (retry_backoff_bound (fun _ => none) "image" "w").2.1,
   (retry_backoff_bound (fun _ => none) "image" "w").2.2.2.2 (fun _ _ => rfl)⟩

/-! ### Lemmas about the batch summarizers -/

/-- Reference slot sequence: what the text/table loop appends, one slot per
item, consuming one oracle call per item starting at `ci`. -/
def slotsFrom (o : Oracle) (kind : String) : Nat → List String → List String
  | _, [] => []
  | ci, it :: rest => slotFor o kind ci it :: slotsFrom o kind (ci + 1) rest

/-- Number of failure outcomes among calls `ci, ci+1, ...` aligned with the
item list. -/
def failCount (o : Oracle) : Nat → List String → Nat
  | _, [] => 0
  | ci, _ :: rest => (if isFailure (o ci) then 1 else 0) + failCount o (ci + 1) rest

lemma summLoop_eq (kind : String) (o : Oracle) :
    ∀ (items : List String) (ci errs : Nat),
    summLoop kind o items ci errs =
      (slotsFrom o kind ci items, errs + failCount o ci items,
       ci + items.length) := by
  intro items
  induction items with
  | nil => intro ci errs; simp [summLoop, slotsFrom, failCount]
  | cons it rest ih =>
    intro ci errs
    cases ho : o ci with
    | success s =>
      simp only [summLoop, ho, ih, slotsFrom, failCount, slotFor, isFailure,
        Prod.ext_iff, if_false, Bool.false_eq_true, List.length_cons, true_and] <;>
        omega
    | rateLimited d =>
      simp only [summLoop, ho, ih, slotsFrom, failCount, slotFor, isFailure,
        Prod.ext_iff, if_true, List.length_cons, true_and] <;>
        omega
    | otherError =>
      simp only [summLoop, ho, ih, slotsFrom, failCount, slotFor, isFailure,
        Prod.ext_iff, if_true, List.length_cons, true_and] <;>
        omega

lemma slotsFrom_length (o : Oracle) (kind : String) :
    ∀ (items : List String) (ci : Nat),
    (slotsFrom o kind ci items).length = items.length := by
  intro items
  induction items with
  | nil => intro ci; rfl
  | cons it rest ih => intro ci; simp [slotsFrom, ih]

lemma slotsFrom_get? (o : Oracle) (kind : String) :
    ∀ (items : List String) (ci j : Nat) (t : String),
    items.get? j = some t →
    (slotsFrom o kind ci items).get? j = some (slotFor o kind (ci + j) t) := by
  intro items
  induction items with
  | nil => intro ci j t h; simp at h
  | cons it rest ih =>
    intro ci j t h
    cases j with
    | zero =>
      simp at h
      subst h
      simp [slotsFrom]
    | succ j' =>
      have h' : rest.get? j' = some t := by simpa using h
      have := ih (ci + 1) j' t h'
      rw [show ci + (j' + 1) = ci + 1 + j' by omega]
      simpa [slotsFrom] using this

lemma slotsFrom_mem (o : Oracle) (kind : String) :
    ∀ (items : List String) (ci : Nat) (s : String),
    s ∈ slotsFrom o kind ci items →
    ∃ n it, it ∈ items ∧ s = slotFor o kind n it := by
  intro items
  induction items with
  | nil => intro ci s h; simp [slotsFrom] at h
  | cons it rest ih =>
    intro ci s h
    rcases List.mem_cons.mp h with h | h
    · exact ⟨ci, it, List.mem_cons_self _ _, h⟩
    · obtain ⟨n, it', hm, he⟩ := ih (ci + 1) s h
      exact ⟨n, it', List.mem_cons_of_mem _ hm, he⟩

lemma retryLoop_shape (o : Oracle) (t k : String) :
    ∀ (fuel retries ci : Nat) (sleeps : List Nat),
    ((retryLoop o t k fuel retries ci sleeps).ok = true →
      ∃ n, o n = .success ((retryLoop o t k fuel retries ci sleeps).result))
    ∧ ((retryLoop o t k fuel retries ci sleeps).ok = false →
      (retryLoop o t k fuel retries ci sleeps).result = errorSentinel t k
      ∨ (retryLoop o t k fuel retries ci sleeps).result = exhaustedSentinel t k) := by
  intro fuel
  induction fuel with
  | zero =>
    intro retries ci sleeps
    constructor
    · intro h; simp [retryLoop] at h
    · intro _; right; rfl
  | succ f ih =>
    intro retries ci sleeps
    cases ho : o ci with
    | success s =>
      constructor
      · intro _
        refine ⟨ci, ?_⟩
        rw [ho]
        simp [retryLoop, ho]
      · intro h
        simp [retryLoop, ho] at h
    | otherError =>
      constructor
      · intro h; simp [retryLoop, ho] at h
      · intro _; left; simp [retryLoop, ho]
    | rateLimited d =>
      simp only [retryLoop, ho]
      exact ih _ _ _

/-- `retryLoop_shape` restated on the public wrapper. -/
lemma make_llm_call_shape (o : Oracle) (ci : Nat) (t k : String) (m : Nat) :
    ((make_llm_call_with_retry_multimodal o ci t k m).ok = true →
      ∃ n, o n = .success ((make_llm_call_with_retry_multimodal o ci t k m).result))
    ∧ ((make_llm_call_with_retry_multimodal o ci t k m).ok = false →
      (make_llm_call_with_retry_multimodal o ci t k m).result = errorSentinel t k
      ∨ (make_llm_call_with_retry_multimodal o ci t k m).result
          = exhaustedSentinel t k) :=
  retryLoop_shape o t k m 0 ci []

/-! #### String sentinels -/

lemma startsWithChars_self_append (m t : List Char) :
    startsWithChars m (m ++ t) = true := by
  induction m with
  | nil => rfl
  | cons c cs ih => simp [startsWithChars, ih]

lemma hasSubChars_self_append (m t : List Char) :
    hasSubChars m (m ++ t) = true := by
  cases m with
  | nil =>
    cases t with
    | nil => rfl
    | cons a r => simp [hasSubChars, startsWithChars]
  | cons c cs =>
    show hasSubChars (c :: cs) (c :: (cs ++ t)) = true
    simp only [hasSubChars]
    rw [Bool.or_eq_true]
    exact Or.inl (startsWithChars_self_append (c :: cs) t)

lemma markerHit_errorSentinel (k : String) :
    markerHit (errorSentinel "image" k) = true := by
  have hd : (errorSentinel "image" k).data
      = "Error summarizing image".data ++ (" ".data ++ (k.data ++ ".".data)) := by
    unfold errorSentinel
    rw [String.data_append, String.data_append, String.data_append,
      String.data_append]
    rw [show "Error summarizing ".data ++ "image".data
        = "Error summarizing image".data from rfl]
    rw [List.append_assoc, List.append_assoc]
  unfold markerHit
  have h1 : containsSub (errorSentinel "image" k) "Error summarizing image" = true := by
    unfold containsSub
    rw [hd]
    exact hasSubChars_self_append _ _
  rw [h1]
  simp

lemma markerHit_exhaustedSentinel (k : String) :
    markerHit (exhaustedSentinel "image" k) = true := by
  have hd : (exhaustedSentinel "image" k).data
      = "Failed to summarize image".data
          ++ (" ".data ++ (k.data ++ " after multiple retries.".data)) := by
    unfold exhaustedSentinel
    rw [String.data_append, String.data_append, String.data_append,
      String.data_append]
    rw [show "Failed to summarize ".data ++ "image".data
        = "Failed to summarize image".data from rfl]
    rw [List.append_assoc, List.append_assoc]
  unfold markerHit
  have h2 : containsSub (exhaustedSentinel "image" k) "Failed to summarize image" = true := by
    unfold containsSub
    rw [hd]
    exact hasSubChars_self_append _ _
  rw [h2]
  exact Bool.or_true _

lemma ne_empty_of_right (a b : String) (hb : b.length ≠ 0) : a ++ b ≠ "" := by
  intro h
  have := congrArg String.length h
  rw [String.length_append] at this
  rw [show ("" : String).length = 0 from rfl] at this
  omega

/-! #### Image batch lemmas -/

lemma imgLoop_length (o : Oracle) (dec : Decoder) :
    ∀ (items : List ImgItem) (ci cnt : Nat),
    (imgLoop o dec items ci cnt).1.length = items.length := by
  intro items
  induction items with
  | nil => intro ci cnt; rfl
  | cons it rest ih =>
    intro ci cnt
    cases hd : dec it.base64_data with
    | none => simp [imgLoop, hd, ih]
    | some b => simp [imgLoop, hd, ih]

lemma imgLoop_shape (o : Oracle) (dec : Decoder) :
    ∀ (items : List ImgItem) (ci cnt : Nat) (pr : String × Bool),
    pr ∈ (imgLoop o dec items ci cnt).1 →
    (pr.2 = true → ∃ n, o n = .success pr.1)
    ∧ (pr.2 = false →
       ∃ it, it ∈ items ∧ (pr.1 = procSentinel it
         ∨ pr.1 = errorSentinel "image" (imgElementKey it)
         ∨ pr.1 = exhaustedSentinel "image" (imgElementKey it))) := by
  intro items
  induction items with
  | nil => intro ci cnt pr h; simp [imgLoop] at h
  | cons it rest ih =>
    intro ci cnt pr h
    cases hd : dec it.base64_data with
    | none =>
      simp only [imgLoop, hd] at h
      rcases List.mem_cons.mp h with h | h
      · subst h
        constructor
        · intro hcon; simp at hcon
        · intro _
          exact ⟨it, List.mem_cons_self _ _, Or.inl rfl⟩
      · obtain ⟨h1, h2⟩ := ih _ _ _ h
        refine ⟨h1, fun hf => ?_⟩
        obtain ⟨it', hm, hs⟩ := h2 hf
        exact ⟨it', List.mem_cons_of_mem _ hm, hs⟩
    | some b =>
      simp only [imgLoop, hd] at h
      rcases List.mem_cons.mp h with h | h
      · subst h
        have hs := make_llm_call_shape o ci "image" (imgElementKey it) 5
        constructor
        · intro hok
          exact hs.1 hok
        · intro hfail
          obtain hres | hres := hs.2 hfail
          · exact ⟨it, List.mem_cons_self _ _, Or.inr (Or.inl hres)⟩
          · exact ⟨it, List.mem_cons_self _ _, Or.inr (Or.inr hres)⟩
      · obtain ⟨h1, h2⟩ := ih _ _ _ h
        refine ⟨h1, fun hf => ?_⟩
        obtain ⟨it', hm, hs⟩ := h2 hf
        exact ⟨it', List.mem_cons_of_mem _ hm, hs⟩

lemma imgLoop_counter (o : Oracle) (dec : Decoder)
    (hm : ∀ n s, o n = .success s → markerHit s = false) :
    ∀ (items : List ImgItem) (ci cnt : Nat),
    (imgLoop o dec items ci cnt).2.1 =
      cnt + ((imgLoop o dec items ci cnt).1.filter (fun pr => !pr.2)).length := by
  intro items
  induction items with
  | nil => intro ci cnt; simp [imgLoop]
  | cons it rest ih =>
    intro ci cnt
    cases hd : dec it.base64_data with
    | none =>
      simp only [imgLoop, hd]
      rw [ih]
      simp [List.filter]
      omega
    | some b =>
      simp only [imgLoop, hd]
      by_cases hok :
          (make_llm_call_with_retry_multimodal o ci "image" (imgElementKey it) 5).ok = true
      · have hmk : markerHit
            (make_llm_call_with_retry_multimodal o ci "image" (imgElementKey it) 5).result
            = false := by
          obtain ⟨n, hn⟩ :=
            (make_llm_call_shape o ci "image" (imgElementKey it) 5).1 hok
          exact hm n _ hn
        rw [hmk]
        simp only [Bool.false_eq_true, if_false]
        rw [ih]
        simp [List.filter, hok]
      · have hfail :
            (make_llm_call_with_retry_multimodal o ci "image" (imgElementKey it) 5).ok
              = false := by
          simpa using hok
        have hmk : markerHit
            (make_llm_call_with_retry_multimodal o ci "image" (imgElementKey it) 5).result
            = true := by
          obtain hres | hres :=
            (make_llm_call_shape o ci "image" (imgElementKey it) 5).2 hfail
          · rw [hres]; exact markerHit_errorSentinel _
          · rw [hres]; exact markerHit_exhaustedSentinel _
        rw [hmk]
        simp only [if_true]
        rw [ih]
        simp [List.filter, hfail]
        omega

lemma generate_table_text_summaries_eq (o : Oracle) (texts tables : List String) :
    generate_table_text_summaries o texts tables =
      ⟨slotsFrom o "text" 0 texts, slotsFrom o "table" texts.length tables,
       failCount o 0 texts, failCount o texts.length tables,
       texts.length + tables.length⟩ := by
  unfold generate_table_text_summaries
  simp only [summLoop_eq]
  simp

lemma summarySentinel_ne_empty (kind item : String) :
    summarySentinel kind item ≠ "" := by
  unfold summarySentinel
  exact ne_empty_of_right _ "..." (by decide)

lemma procSentinel_ne_empty (it : ImgItem) : procSentinel it ≠ "" := by
  unfold procSentinel
  exact ne_empty_of_right _ "." (by decide)

lemma errorSentinel_ne_empty (t k : String) : errorSentinel t k ≠ "" := by
  unfold errorSentinel
  exact ne_empty_of_right _ "." (by decide)

lemma exhaustedSentinel_ne_empty (t k : String) : exhaustedSentinel t k ≠ "" := by
  unfold exhaustedSentinel
  exact ne_empty_of_right _ " after multiple retries." (by decide)

/-- C8: each batch engine returns exactly one result per input item, in
input order.  Each text/table slot is exactly the model's success text when
the item's single call succeeds and the item's failure sentinel otherwise
(so a failure in one item never disturbs any other item's slot, and the
batch always runs to completion); each image slot is a success text or one
of the item's sentinels; and no slot is empty provided the model's success
texts are nonempty (the sentinels are never empty). -/
theorem summarize_batch_cardinality :
    (∀ (o : Oracle) (texts tables : List String),
      (generate_table_text_summaries o texts tables).text_summaries.length
          = texts.length
      ∧ (generate_table_text_summaries o texts tables).table_summaries.length
          = tables.length
      ∧ (∀ j t, texts.get? j = some t →
          (generate_table_text_summaries o texts tables).text_summaries.get? j
            = some (slotFor o "text" j t))
      ∧ (∀ j t, tables.get? j = some t →
          (generate_table_text_summaries o texts tables).table_summaries.get? j
            = some (slotFor o "table" (texts.length + j) t))
      ∧ ((∀ n s, o n = .success s → s ≠ "") →
          (∀ s ∈ (generate_table_text_summaries o texts tables).text_summaries, s ≠ "")
          ∧ (∀ s ∈ (generate_table_text_summaries o texts tables).table_summaries, s ≠ "")))
    ∧ (∀ (o : Oracle) (dec : Decoder) (items : List ImgItem),
      (image_to_text_summarizer o dec items).1.length = items.length
      ∧ (∀ s ∈ (image_to_text_summarizer o dec items).1,
          (∃ n, o n = .success s)
          ∨ ∃ it, it ∈ items ∧ (s = procSentinel it
              ∨ s = errorSentinel "image" (imgElementKey it)
              ∨ s = exhaustedSentinel "image" (imgElementKey it)))
      ∧ ((∀ n s, o n = .success s → s ≠ "") →
          ∀ s ∈ (image_to_text_summarizer o dec items).1, s ≠ "")) := by
  constructor
  · intro o texts tables
    rw [generate_table_text_summaries_eq]
    refine ⟨slotsFrom_length o "text" texts 0, slotsFrom_length o "table" tables _,
      ?_, ?_, ?_⟩
    · intro j t h
      have := slotsFrom_get? o "text" texts 0 j t h
      simpa using this
    · intro j t h
      exact slotsFrom_get? o "table" tables texts.length j t h
    · intro hne
      constructor
      · intro s hs
        obtain ⟨n, it, _, hsl⟩ := slotsFrom_mem o "text" texts 0 s hs
        subst hsl
        unfold slotFor
        cases ho : o n with
        | success s' => exact hne n s' ho
        | rateLimited d => exact summarySentinel_ne_empty _ _
        | otherError => exact summarySentinel_ne_empty _ _
      · intro s hs
        obtain ⟨n, it, _, hsl⟩ := slotsFrom_mem o "table" tables texts.length s hs
        subst hsl
        unfold slotFor
        cases ho : o n with
        | success s' => exact hne n s' ho
        | rateLimited d => exact summarySentinel_ne_empty _ _
        | otherError => exact summarySentinel_ne_empty _ _
  · intro o dec items
    refine ⟨?_, ?_, ?_⟩
    · show ((imgLoop o dec items 0 0).1.map Prod.fst).length = items.length
      rw [List.length_map]
      exact imgLoop_length o dec items 0 0
    · intro s hs
      obtain ⟨pr, hpr, hfst⟩ := List.mem_map.mp hs
      obtain ⟨h1, h2⟩ := imgLoop_shape o dec items 0 0 pr hpr
      cases hb : pr.2 with
      | true =>
        obtain ⟨n, hn⟩ := h1 hb
        exact Or.inl ⟨n, hfst ▸ hn⟩
      | false =>
        obtain ⟨it, hm, hsent⟩ := h2 hb
        exact Or.inr ⟨it, hm, hfst ▸ hsent⟩
    · intro hne s hs
      obtain ⟨pr, hpr, hfst⟩ := List.mem_map.mp hs
      obtain ⟨h1, h2⟩ := imgLoop_shape o dec items 0 0 pr hpr
      cases hb : pr.2 with
      | true =>
        obtain ⟨n, hn⟩ := h1 hb
        exact hfst ▸ hne n pr.1 hn
      | false =>
        obtain ⟨it, _, hsent⟩ := h2 hb
        subst hfst
        rcases hsent with h | h | h
        · exact h ▸ procSentinel_ne_empty it
        · exact h ▸ errorSentinel_ne_empty _ _
        · exact h ▸ exhaustedSentinel_ne_empty _ _

/-- Witness for C8: a two-item text batch whose first call fails and second
succeeds yields two slots, the sentinel then the success text. -/
theorem summarize_batch_cardinality_witness :
    (generate_table_text_summaries
        (fun n => if n = 0 then .otherError else .success "sum") ["a", "b"] []).text_summaries.length = 2
    ∧ (generate_table_text_summaries
        (fun n => if n = 0 then .otherError else .success "sum") ["a", "b"] []).text_summaries.get? 0
        = some (slotFor (fun n => if n = 0 then .otherError else .success "sum") "text" 0 "a")
    ∧ (generate_table_text_summaries
        (fun n => if n = 0 then .otherError else .success "sum") ["a", "b"] []).text_summaries.get? 1
        = some (slotFor (fun n => if n = 0 then .otherError else .success "sum") "text" 1 "b") :=
  ⟨(summarize_batch_cardinality.1
      (fun n => if n = 0 then .otherError else .success "sum") ["a", "b"] []).1,
   (summarize_batch_cardinality.1
      (fun n => if n = 0 then .otherError else .success "sum") ["a", "b"] []).2.2.1 0 "a" rfl,
   (summarize_batch_cardinality.1
      (fun n => if n = 0 then .otherError else .success "sum") ["a", "b"] []).2.2.1 1 "b" rfl⟩

/-! ### Retry routing (C1) and failure counters (C9) -/

/-- Oracle whose first call is rate-limited and whose later calls succeed. -/
def retryOnceOracle : Oracle :=
  fun n => if n = 0 then .rateLimited none else .success "ok"

set_option maxRecDepth 4096 in
/-- Counterexample to C1 as stated: on a trace whose first call raises a
rate-limit error and whose second call succeeds, text summarization emits
the failure sentinel after exactly one call (total calls made: 1), while
the bounded-retry wrapper run on the same trace recovers and returns the
success text.  So text (and table) summarization is NOT made through the
retry wrapper: a rate-limited call is converted to a sentinel with no
retry. -/
theorem text_path_no_retry_cex :
    (generate_table_text_summaries retryOnceOracle ["t"] []).text_summaries
      = ["Error summarizing text: t..."]
    ∧ (generate_table_text_summaries retryOnceOracle ["t"] []).calls = 1
    ∧ (make_llm_call_with_retry_multimodal retryOnceOracle 0 "text" "1" 5).result
      = "ok" := by
  refine ⟨?_, ?_, ?_⟩ <;> decide

/-- C1 (amended): only image summarization is routed through the bounded
retry wrapper.  Text and table summarization make exactly one model call
per item — `calls` equals the total number of items — and an item whose
single call raises (rate-limit included) receives the sentinel directly;
whereas every decoded image item's slot is produced by the retry wrapper
(with `max_retries = 5`), which does retry rate-limited calls with
exponential backoff before producing any sentinel. -/
theorem summarization_retry_routing :
    (∀ (o : Oracle) (texts tables : List String),
      (generate_table_text_summaries o texts tables).calls
        = texts.length + tables.length)
    ∧ (∀ (o : Oracle) (texts tables : List String) (j : Nat) (t : String),
      texts.get? j = some t → isFailure (o j) = true →
      (generate_table_text_summaries o texts tables).text_summaries.get? j
        = some (summarySentinel "text" t))
    ∧ (∀ (o : Oracle) (dec : Decoder) (it : ImgItem) (rest : List ImgItem)
        (ci cnt : Nat) (b : List Nat),
      dec it.base64_data = some b →
      (imgLoop o dec (it :: rest) ci cnt).1.get? 0 =
        some ((make_llm_call_with_retry_multimodal o ci "image" (imgElementKey it) 5).result,
              (make_llm_call_with_retry_multimodal o ci "image" (imgElementKey it) 5).ok))
    ∧ (∀ (o : Oracle) (t k s : String),
      o 0 = .rateLimited none → o 1 = .success s →
      (make_llm_call_with_retry_multimodal o 0 t k 5).result = s) := by
  refine ⟨?_, ?_, ?_, ?_⟩
  · intro o texts tables
    rw [generate_table_text_summaries_eq]
  · intro o texts tables j t hj hf
    rw [generate_table_text_summaries_eq]
    have := slotsFrom_get? o "text" texts 0 j t hj
    rw [show (0 : Nat) + j = j by omega] at this
    show (slotsFrom o "text" 0 texts).get? j = _
    rw [this]
    unfold slotFor
    cases ho : o j with
    | success s' => rw [ho] at hf; simp [isFailure] at hf
    | rateLimited d => rfl
    | otherError => rfl
  · intro o dec it rest ci cnt b hb
    simp only [imgLoop, hb]
    rfl
  · intro o t k s h0 h1
    have step1 : make_llm_call_with_retry_multimodal o 0 t k 5
        = retryLoop o t k 4 1 1 [2 ^ 1] := by
      show retryLoop o t k (4 + 1) 0 0 [] = _
      conv_lhs => rw [retryLoop]
      rw [h0]
    rw [step1]
    have step2 : retryLoop o t k 4 1 1 [2 ^ 1]
        = ⟨s, true, [2 ^ 1].reverse, 1 + 1, 1 + 1⟩ := by
      show retryLoop o t k (3 + 1) 1 1 [2 ^ 1] = _
      conv_lhs => rw [retryLoop]
      rw [h1]
    rw [step2]

/-- Witness for the amended C1: one rate-limited first call, then success:
the text path makes one call and produces the sentinel, the wrapper
recovers to "ok". -/
theorem summarization_retry_routing_witness :
    (generate_table_text_summaries retryOnceOracle ["t"] []).calls = 1
    ∧ (generate_table_text_summaries retryOnceOracle ["t"] []).text_summaries.get? 0
        = some (summarySentinel "text" "t")
    ∧ (make_llm_call_with_retry_multimodal retryOnceOracle 0 "image" "w" 5).result
        = "ok" :=
  ⟨summarization_retry_routing.1 retryOnceOracle ["t"] [],
   summarization_retry_routing.2.1 retryOnceOracle ["t"] [] 0 "t" rfl rfl,
   summarization_retry_routing.2.2.2 retryOnceOracle "image" "w" "ok" rfl rfl⟩

/-- Oracle that always succeeds with a summary that happens to contain the
failure marker substring. -/
def markerOracle : Oracle := fun _ => .success "Error summarizing image x"

/-- Decoder that always succeeds (well-formed base64 payloads). -/
def decodeOk : Decoder := fun _ => some []

/-- A single well-formed image item. -/
def exItem : ImgItem := ⟨"key", "", "", 1⟩

/-- Counterexample to C9 as stated: the model succeeds on every call, the
single slot holds the successful summary delivered through the success
branch (the annotated flag is `true`, so no sentinel was produced), yet the
reported failure counter is 1, because the source detects failures by
substring containment ("Error summarizing image" occurs in the successful
summary). -/
theorem image_counter_not_sentinel_count_cex :
    (image_to_text_summarizer markerOracle decodeOk [exItem]).2 = 1
    ∧ (imgLoop markerOracle decodeOk [exItem] 0 0).1
        = [("Error summarizing image x", true)]
    ∧ markerOracle 0 = .success "Error summarizing image x" := by
  refine ⟨?_, ?_, rfl⟩
  · rfl
  · rfl

/-- C9 (amended): for the text and table batches the reported counters are
exactly the number of items whose call failed, that is, the number of
sentinel slots (see the C8 slot characterization); for the image batch the
counter counts slots containing a marker substring, which equals the number
of sentinel slots (the slots not delivered through the wrapper's success
branch) provided no successful summary contains a marker substring. -/
theorem failure_counter_semantics :
    (∀ (o : Oracle) (texts tables : List String),
      (generate_table_text_summaries o texts tables).text_errors
        = failCount o 0 texts
      ∧ (generate_table_text_summaries o texts tables).table_errors
        = failCount o texts.length tables)
    ∧ (∀ (o : Oracle) (dec : Decoder) (items : List ImgItem),
      (∀ n s, o n = .success s → markerHit s = false) →
      (image_to_text_summarizer o dec items).2 =
        ((imgLoop o dec items 0 0).1.filter (fun pr => !pr.2)).length) := by
  constructor
  · intro o texts tables
    rw [generate_table_text_summaries_eq]
    exact ⟨rfl, rfl⟩
  · intro o dec items hm
    show (imgLoop o dec items 0 0).2.1 = _
    rw [imgLoop_counter o dec hm items 0 0]
    omega

/-- Witness for the amended C9: an always-failing trace on a single image
item; the counter equals the number of non-success slots (here 1). -/
theorem failure_counter_semantics_witness :
    (image_to_text_summarizer (fun _ => .otherError) decodeOk [exItem]).2 =
      ((imgLoop (fun _ => .otherError) decodeOk [exItem] 0 0).1.filter
        (fun pr => !pr.2)).length :=
  failure_counter_semantics.2 (fun _ => .otherError) decodeOk [exItem]
    (fun _ s h => CallResult.noConfusion h)

/-! ### Categorizer theorems -/

lemma catLoop_eq (raw : List Element) (pages : Int) :
    ∀ (l : List (Nat × Element)),
    catLoop raw pages l =
      ((l.filter (fun p => retainedB pages p.2 && isTextCategory p.2)).map
         (fun p => p.2.text),
       (l.filter (fun p => retainedB pages p.2 && !isTextCategory p.2 &&
          (p.2.category == "Table"))).map
         (fun p => tableString raw p.1 p.2)) := by
  intro l
  induction l with
  | nil => rfl
  | cons p rest ih =>
    obtain ⟨i, el⟩ := p
    by_cases hr : retainedB pages el = true
    · by_cases ht : isTextCategory el = true
      · simp [catLoop, hr, ht, ih]
      · by_cases htab : (el.category == "Table") = true
        · simp [catLoop, hr, ht, htab, ih]
        · simp [catLoop, hr, ht, htab, ih]
    · simp [catLoop, hr, ih]

/-- C7: a retained `Table` element at index `i` of the original stream
contributes exactly `tableString raw i el` to the tables output, and that
string is the predecessor's text plus a blank-line separator plus the
table's HTML markup precisely when the element at index `i-1` of the
original (unfiltered) stream is text-like with nonempty stringified text of
fewer than 200 characters; otherwise it is the HTML markup unmodified
(also when `i = 0`). -/
theorem categorize_table_context (raw : List Element) (pages : Int)
    (i : Nat) (el : Element)
    (hget : raw.get? i = some el)
    (htab : el.category = "Table")
    (hret : retainedB pages el = true) :
    tableString raw i el ∈ (categorize_elements raw pages).2
    ∧ (∀ prev, 0 < i → raw.get? (i - 1) = some prev →
        isTextCategory prev = true → prev.text ≠ "" → prev.text.length < 200 →
        tableString raw i el = prev.text ++ "\n\n" ++ el.metadata.text_as_html)
    ∧ (∀ prev, 0 < i → raw.get? (i - 1) = some prev →
        (isTextCategory prev = false ∨ prev.text = "" ∨ 200 ≤ prev.text.length) →
        tableString raw i el = el.metadata.text_as_html)
    ∧ (i = 0 → tableString raw i el = el.metadata.text_as_html) := by
  refine ⟨?_, ?_, ?_, ?_⟩
  · unfold categorize_elements
    rw [catLoop_eq]
    show tableString raw i el ∈
      (raw.enum.filter (fun p => retainedB pages p.2 && !isTextCategory p.2 &&
        (p.2.category == "Table"))).map (fun p => tableString raw p.1 p.2)
    have hmem : ((i, el) : Nat × Element) ∈
        raw.enum.filter (fun p => retainedB pages p.2 && !isTextCategory p.2 &&
          (p.2.category == "Table")) := by
      rw [List.mem_filter]
      constructor
      · exact List.mem_enum_iff_get?.mpr hget
      · have htc : isTextCategory el = false := by
          unfold isTextCategory
          rw [htab]
          decide
        simp [hret, htc, htab]
    have := List.mem_map_of_mem (fun p => tableString raw p.1 p.2) hmem
    simpa using this
  · intro prev hi hprev htl hne hlen
    unfold tableString
    rw [if_pos hi, hprev]
    simp only [htl, if_true]
    have hc1 : (prev.text == "") = false := by
      simp [hne]
    rw [hc1]
    simp [hlen]
  · intro prev hi hprev hbad
    unfold tableString
    rw [if_pos hi, hprev]
    rcases hbad with h | h | h
    · simp [h]
    · simp [h]
    · have hnl : ¬ (prev.text.length < 200) := by omega
      by_cases htl : isTextCategory prev = true
      · simp [htl, hnl]
      · simp [htl]
  · intro h0
    subst h0
    unfold tableString
    simp

/-- A 199-character text run. -/
def exText199 : Element :=
  ⟨"NarrativeText", String.mk (List.replicate 199 'a'), ⟨some 1, none, none, ""⟩⟩

/-- A 200-character text run. -/
def exText200 : Element :=
  ⟨"NarrativeText", String.mk (List.replicate 200 'a'), ⟨some 1, none, none, ""⟩⟩

/-- A table preceded by the 199-character run. -/
def exTable1 : Element := ⟨"Table", "", ⟨some 1, none, none, "<table>1</table>"⟩⟩

/-- A table preceded by the 200-character run. -/
def exTable2 : Element := ⟨"Table", "", ⟨some 1, none, none, "<table>2</table>"⟩⟩

/-- The witness stream: text(199), table, text(200), table. -/
def exStream : List Element := [exText199, exTable1, exText200, exTable2]

set_option maxRecDepth 4096 in
/-- Witness for C7: the 199-character run is prepended with the blank-line
separator, the 200-character run is not. -/
theorem categorize_table_context_witness :
    tableString exStream 1 exTable1
      = exText199.text ++ "\n\n" ++ exTable1.metadata.text_as_html
    ∧ tableString exStream 3 exTable2 = exTable2.metadata.text_as_html
    ∧ tableString exStream 1 exTable1 ∈ (categorize_elements exStream 100).2 := by
  refine ⟨?_, ?_, ?_⟩
  · exact (categorize_table_context exStream 100 1 exTable1 rfl rfl (by decide)).2.1
      exText199 (by norm_num) rfl (by decide) (by decide) (by decide)
  · exact (categorize_table_context exStream 100 3 exTable2 rfl rfl (by decide)).2.2.1
      exText200 (by norm_num) rfl (Or.inr (Or.inr (by decide)))
  · exact (categorize_table_context exStream 100 1 exTable1 rfl rfl (by decide)).1

/-! ### Bundle dictionary lemmas -/

/-- Key list of a bundle dictionary. -/
def keysOf (d : BundleDict) : List GeomKey := d.map Prod.fst

/-- Keys of images carrying page and coordinate metadata. -/
def imageKeys (images : List Element) : List GeomKey :=
  images.filterMap elementImageKey

lemma lookupKey_isSome_iff (k : GeomKey) :
    ∀ d : BundleDict, (lookupKey k d).isSome = true ↔ k ∈ keysOf d := by
  intro d
  induction d with
  | nil => simp [lookupKey, keysOf]
  | cons kv rest ih =>
    by_cases h : kv.1 = k
    · simp [lookupKey, h, keysOf]
    · constructor
      · intro hs
        rw [show lookupKey k (kv :: rest) = lookupKey k rest by
          simp [lookupKey, h]] at hs
        exact List.mem_cons_of_mem _ (ih.mp hs)
      · intro hm
        rcases List.mem_cons.mp hm with hm | hm
        · exact absurd hm.symm h
        · rw [show lookupKey k (kv :: rest) = lookupKey k rest by
            simp [lookupKey, h]]
          exact ih.mpr hm

lemma lookupKey_append (k : GeomKey) :
    ∀ (d₁ d₂ : BundleDict),
    lookupKey k (d₁ ++ d₂) =
      (match lookupKey k d₁ with
       | some v => some v
       | none => lookupKey k d₂) := by
  intro d₁ d₂
  induction d₁ with
  | nil => simp [lookupKey]
  | cons kv rest ih =>
    by_cases h : kv.1 = k
    · simp [lookupKey, h]
    · simp [lookupKey, h, ih]

lemma dictInsert_keys_present {d : BundleDict} {k : GeomKey}
    (h : (lookupKey k d).isSome = true) (v : Bundle) :
    keysOf (dictInsert d k v) = keysOf d := by
  unfold dictInsert keysOf
  rw [if_pos h, List.map_map]
  apply List.map_congr_left
  intro kv _
  by_cases h2 : kv.1 = k
  · simp [h2, Function.comp]
  · simp [h2, Function.comp]

lemma dictInsert_keys_absent {d : BundleDict} {k : GeomKey}
    (h : (lookupKey k d).isSome = false) (v : Bundle) :
    keysOf (dictInsert d k v) = keysOf d ++ [k] := by
  unfold dictInsert keysOf
  rw [if_neg (by simp [h])]
  simp

lemma dictInsert_keys_nodup {d : BundleDict} {k : GeomKey} {v : Bundle}
    (hn : (keysOf d).Nodup) : (keysOf (dictInsert d k v)).Nodup := by
  cases hks : (lookupKey k d).isSome with
  | true => rw [dictInsert_keys_present hks]; exact hn
  | false =>
    rw [dictInsert_keys_absent hks]
    have hk : k ∉ keysOf d := by
      intro hmem
      rw [← lookupKey_isSome_iff] at hmem
      rw [hks] at hmem
      simp at hmem
    simp [List.nodup_append, hn, hk]

lemma dictInsert_keys_subset {d : BundleDict} {k : GeomKey} {v : Bundle}
    (x : GeomKey) (hx : x ∈ keysOf (dictInsert d k v)) :
    x ∈ keysOf d ∨ x = k := by
  cases hks : (lookupKey k d).isSome with
  | true => rw [dictInsert_keys_present hks] at hx; exact Or.inl hx
  | false =>
    rw [dictInsert_keys_absent hks] at hx
    rcases List.mem_append.mp hx with h | h
    · exact Or.inl h
    · exact Or.inr (by simpa using h)

lemma dictInsert_mem {d : BundleDict} {k : GeomKey} {v : Bundle}
    (kv : GeomKey × Bundle) (h : kv ∈ dictInsert d k v) :
    kv ∈ d ∨ kv = (k, v) := by
  unfold dictInsert at h
  by_cases hq : (lookupKey k d).isSome = true
  · rw [if_pos hq] at h
    obtain ⟨kv', hm, he⟩ := List.mem_map.mp h
    by_cases h2 : kv'.1 = k
    · right
      rw [← he]
      simp [h2]
    · left
      rw [← he]
      simp only [h2, if_false]
      exact hm
  · rw [if_neg hq] at h
    rcases List.mem_append.mp h with h | h
    · exact Or.inl h
    · right; simpa using h

lemma lookupKey_dictInsert_mono {d : BundleDict} {k k' : GeomKey} {v : Bundle}
    (h : (lookupKey k' d).isSome = true) :
    (lookupKey k' (dictInsert d k v)).isSome = true := by
  rw [lookupKey_isSome_iff] at h ⊢
  cases hks : (lookupKey k d).isSome with
  | true => rw [dictInsert_keys_present hks]; exact h
  | false =>
    rw [dictInsert_keys_absent hks]
    exact List.mem_append.mpr (Or.inl h)

/-! ### Bundle generation: unfolding lemmas -/

lemma generate_caption_image_page_number_eq (raw : List Element)
    (b64 : GeomKey → Option String) :
    generate_caption_image_page_number raw b64 =
      (raw.filter (fun el => el.category == "Image")).foldl (orphanStep b64)
        ((raw.filter (fun el => el.category == "FigureCaption")).foldl
          (captionStep b64
            ((raw.filter (fun el => el.category == "Image")).filterMap mkImgData))
          []) := rfl

lemma orphanStep_eq_no_page (b64 : GeomKey → Option String) (d : BundleDict)
    (el : Element) (hp : el.metadata.page_number = none) :
    orphanStep b64 d el = d := by
  unfold orphanStep
  rw [hp]

lemma orphanStep_eq_no_coords (b64 : GeomKey → Option String) (d : BundleDict)
    (el : Element) {p : Nat} (hp : el.metadata.page_number = some p)
    (hc : el.metadata.coordinates = none) :
    orphanStep b64 d el = d := by
  unfold orphanStep
  rw [hp, hc]

lemma orphanStep_eq (b64 : GeomKey → Option String) (d : BundleDict)
    (el : Element) {p : Nat} {cA : CoordsAttr}
    (hp : el.metadata.page_number = some p)
    (hc : el.metadata.coordinates = some cA) :
    orphanStep b64 d el =
      (if (lookupKey (p, coordsForKey cA.extract) d).isSome then d
       else d ++ [((p, coordsForKey cA.extract),
         ⟨(b64 (p, coordsForKey cA.extract)).getD "", "", p⟩)]) := by
  unfold orphanStep
  rw [hp, hc]

lemma captionStep_eq_none (b64 : GeomKey → Option String)
    (imgsSearch : List ImgData) (d : BundleDict) (caption : Element)
    (hfc : find_closest_image caption imgsSearch = none) :
    captionStep b64 imgsSearch d caption = d := by
  unfold captionStep
  rw [hfc]

lemma captionStep_eq_found (b64 : GeomKey → Option String)
    (imgsSearch : List ImgData) (d : BundleDict) (caption : Element)
    {ci : ImgData} (hfc : find_closest_image caption imgsSearch = some ci) :
    captionStep b64 imgsSearch d caption = captionKeyInsert b64 d caption ci := by
  unfold captionStep
  rw [hfc]

lemma captionStep_eq_bad_page (b64 : GeomKey → Option String)
    (imgsSearch : List ImgData) (d : BundleDict) (caption : Element)
    {ci : ImgData} (hfc : find_closest_image caption imgsSearch = some ci)
    (hp : ci.page_number = none) :
    captionStep b64 imgsSearch d caption = d := by
  rw [captionStep_eq_found b64 imgsSearch d caption hfc]
  unfold captionKeyInsert
  rw [hp]

lemma captionStep_eq_bad_coords (b64 : GeomKey → Option String)
    (imgsSearch : List ImgData) (d : BundleDict) (caption : Element)
    {ci : ImgData} {p : Nat}
    (hfc : find_closest_image caption imgsSearch = some ci)
    (hp : ci.page_number = some p) (hc : ci.coordinates = none) :
    captionStep b64 imgsSearch d caption = d := by
  rw [captionStep_eq_found b64 imgsSearch d caption hfc]
  unfold captionKeyInsert
  rw [hp, hc]

lemma captionStep_eq (b64 : GeomKey → Option String)
    (imgsSearch : List ImgData) (d : BundleDict) (caption : Element)
    {ci : ImgData} {p : Nat} {c : Coords}
    (hfc : find_closest_image caption imgsSearch = some ci)
    (hp : ci.page_number = some p) (hc : ci.coordinates = some c) :
    captionStep b64 imgsSearch d caption =
      (match b64 (p, coordsForKey c) with
       | some payload => dictInsert d (p, coordsForKey c) ⟨payload, caption.text, p⟩
       | none => d) := by
  rw [captionStep_eq_found b64 imgsSearch d caption hfc]
  unfold captionKeyInsert
  rw [hp, hc]

/-! ### Bundle generation: invariants -/

/-- Standing invariant: unique keys drawn from the images' keys, and every
bundle's payload agrees with the base64 dictionary (or is the empty orphan
payload when the dictionary has none for its key). -/
def dictInv (b64 : GeomKey → Option String) (images : List Element)
    (d : BundleDict) : Prop :=
  (keysOf d).Nodup
  ∧ (∀ k ∈ keysOf d, k ∈ imageKeys images)
  ∧ (∀ kv ∈ d, b64 kv.1 = some kv.2.base64_data
      ∨ (kv.2.base64_data = "" ∧ kv.2.caption_text = "" ∧ b64 kv.1 = none))

lemma find_closest_image_mem (caption : Element) (images : List ImgData)
    (img : ImgData) (h : find_closest_image caption images = some img) :
    img ∈ images := by
  cases hc : caption.metadata.coordinates with
  | none => rw [find_closest_image_no_coords _ _ hc] at h; exact absurd h (by simp)
  | some cAttr =>
    cases hp : caption.metadata.page_number with
    | none => rw [find_closest_image_no_page _ _ hp] at h; exact absurd h (by simp)
    | some page =>
      rw [find_closest_image_eq caption cAttr page images hc hp] at h
      cases he : cAttr.extract with
      | ctuple ps => rw [he] at h; exact absurd h (by simp)
      | clist ps =>
        rw [he] at h
        cases ps with
        | nil => exact absurd h (by simp)
        | cons p ps' =>
          rcases searchClosest_ok _ _ _ _ _ _ _ h with hbest | ⟨hm, _⟩
          · exact absurd hbest (by simp)
          · exact hm

lemma mkImgData_key {el : Element} {ci : ImgData} (hmk : mkImgData el = some ci)
    {p : Nat} {c : Coords} (hp : ci.page_number = some p)
    (hc : ci.coordinates = some c) :
    elementImageKey el = some (p, coordsForKey c) := by
  unfold mkImgData at hmk
  cases hpe : el.metadata.page_number with
  | none => rw [hpe] at hmk; simp at hmk
  | some p' =>
    cases hce : el.metadata.coordinates with
    | none => rw [hpe, hce] at hmk; simp at hmk
    | some cA =>
      rw [hpe, hce] at hmk
      have hci : ci = ⟨el.metadata.image_path, some p', some cA.extract⟩ := by
        have := Option.some.inj hmk
        exact this.symm
      rw [hci] at hp hc
      simp at hp hc
      unfold elementImageKey
      rw [hpe, hce]
      show some (p', coordsForKey cA.extract) = some (p, coordsForKey c)
      rw [hp, hc]

lemma captionStep_inv (b64 : GeomKey → Option String) (images : List Element)
    (caption : Element) (d : BundleDict)
    (hinv : dictInv b64 images d) :
    dictInv b64 images
      (captionStep b64 (images.filterMap mkImgData) d caption) := by
  obtain ⟨hn, hs, hco⟩ := hinv
  cases hfc : find_closest_image caption (images.filterMap mkImgData) with
  | none => rw [captionStep_eq_none _ _ _ _ hfc]; exact ⟨hn, hs, hco⟩
  | some ci =>
    cases hp : ci.page_number with
    | none => rw [captionStep_eq_bad_page _ _ _ _ hfc hp]; exact ⟨hn, hs, hco⟩
    | some p =>
      cases hc : ci.coordinates with
      | none => rw [captionStep_eq_bad_coords _ _ _ _ hfc hp hc]; exact ⟨hn, hs, hco⟩
      | some c =>
        rw [captionStep_eq _ _ _ _ hfc hp hc]
        cases hb : b64 (p, coordsForKey c) with
        | none => exact ⟨hn, hs, hco⟩
        | some payload =>
          have hkmem : ((p, coordsForKey c) : GeomKey) ∈ imageKeys images := by
            have hmem := find_closest_image_mem _ _ _ hfc
            obtain ⟨el, hel, hmk⟩ := List.mem_filterMap.mp hmem
            exact List.mem_filterMap.mpr ⟨el, hel, mkImgData_key hmk hp hc⟩
          refine ⟨dictInsert_keys_nodup hn, ?_, ?_⟩
          · intro k hk
            rcases dictInsert_keys_subset k hk with h | h
            · exact hs k h
            · rw [h]; exact hkmem
          · intro kv hkv
            rcases dictInsert_mem kv hkv with h | h
            · exact hco kv h
            · subst h
              exact Or.inl hb

lemma orphanStep_inv (b64 : GeomKey → Option String) (images : List Element)
    (el : Element) (hel : el ∈ images) (d : BundleDict)
    (hinv : dictInv b64 images d) : dictInv b64 images (orphanStep b64 d el) := by
  obtain ⟨hn, hs, hco⟩ := hinv
  cases hp : el.metadata.page_number with
  | none => rw [orphanStep_eq_no_page b64 d el hp]; exact ⟨hn, hs, hco⟩
  | some p =>
    cases hc : el.metadata.coordinates with
    | none => rw [orphanStep_eq_no_coords b64 d el hp hc]; exact ⟨hn, hs, hco⟩
    | some cA =>
      rw [orphanStep_eq b64 d el hp hc]
      by_cases hin : (lookupKey (p, coordsForKey cA.extract) d).isSome = true
      · rw [if_pos hin]; exact ⟨hn, hs, hco⟩
      · rw [if_neg hin]
        have hnotin : ((p, coordsForKey cA.extract) : GeomKey) ∉ keysOf d := by
          intro hmem
          exact hin ((lookupKey_isSome_iff _ _).mpr hmem)
        refine ⟨?_, ?_, ?_⟩
        · rw [show keysOf (d ++ [((p, coordsForKey cA.extract),
              ⟨(b64 (p, coordsForKey cA.extract)).getD "", "", p⟩)])
              = keysOf d ++ [(p, coordsForKey cA.extract)] by simp [keysOf]]
          simp [List.nodup_append, hn, hnotin]
        · intro k hk
          rw [show keysOf (d ++ [((p, coordsForKey cA.extract),
              ⟨(b64 (p, coordsForKey cA.extract)).getD "", "", p⟩)])
              = keysOf d ++ [(p, coordsForKey cA.extract)] by simp [keysOf]] at hk
          rcases List.mem_append.mp hk with h | h
          · exact hs k h
          · have hkk : k = (p, coordsForKey cA.extract) := by simpa using h
            rw [hkk]
            refine List.mem_filterMap.mpr ⟨el, hel, ?_⟩
            unfold elementImageKey
            rw [hp, hc]
        · intro kv hkv
          rcases List.mem_append.mp hkv with h | h
          · exact hco kv h
          · have hkk : kv = ((p, coordsForKey cA.extract),
                ⟨(b64 (p, coordsForKey cA.extract)).getD "", "", p⟩) := by
              simpa using h
            subst hkk
            cases hb : b64 (p, coordsForKey cA.extract) with
            | some s => exact Or.inl rfl
            | none => exact Or.inr ⟨rfl, rfl, rfl⟩

lemma caption_fold_inv (b64 : GeomKey → Option String) (images : List Element) :
    ∀ (caps : List Element) (d : BundleDict), dictInv b64 images d →
    dictInv b64 images
      (caps.foldl (captionStep b64 (images.filterMap mkImgData)) d) := by
  intro caps
  induction caps with
  | nil => intro d h; exact h
  | cons c rest ih =>
    intro d h
    exact ih _ (captionStep_inv b64 images c d h)

lemma orphan_fold_inv (b64 : GeomKey → Option String) (images : List Element) :
    ∀ (l : List Element), (∀ x ∈ l, x ∈ images) →
    ∀ (d : BundleDict), dictInv b64 images d →
    dictInv b64 images (l.foldl (orphanStep b64) d) := by
  intro l
  induction l with
  | nil => intro _ d h; exact h
  | cons e rest ih =>
    intro hsub d h
    exact ih (fun x hx => hsub x (List.mem_cons_of_mem _ hx)) _
      (orphanStep_inv b64 images e (hsub e (List.mem_cons_self _ _)) d h)

lemma orphanStep_mono (b64 : GeomKey → Option String) (d : BundleDict)
    (el : Element) (k : GeomKey) (h : (lookupKey k d).isSome = true) :
    (lookupKey k (orphanStep b64 d el)).isSome = true := by
  cases hp : el.metadata.page_number with
  | none => rw [orphanStep_eq_no_page b64 d el hp]; exact h
  | some p =>
    cases hc : el.metadata.coordinates with
    | none => rw [orphanStep_eq_no_coords b64 d el hp hc]; exact h
    | some cA =>
      rw [orphanStep_eq b64 d el hp hc]
      by_cases hin : (lookupKey (p, coordsForKey cA.extract) d).isSome = true
      · rw [if_pos hin]; exact h
      · rw [if_neg hin]
        rw [lookupKey_append]
        obtain ⟨b, hb⟩ := Option.isSome_iff_exists.mp h
        rw [hb]
        rfl

lemma orphanStep_achieves (b64 : GeomKey → Option String) (d : BundleDict)
    (el : Element) {p : Nat} {cA : CoordsAttr}
    (hp : el.metadata.page_number = some p)
    (hc : el.metadata.coordinates = some cA) :
    (lookupKey (p, coordsForKey cA.extract) (orphanStep b64 d el)).isSome = true := by
  rw [orphanStep_eq b64 d el hp hc]
  by_cases hin : (lookupKey (p, coordsForKey cA.extract) d).isSome = true
  · rw [if_pos hin]; exact hin
  · rw [if_neg hin]
    rw [lookupKey_append]
    have hnone : lookupKey (p, coordsForKey cA.extract) d = none := by
      cases hl : lookupKey (p, coordsForKey cA.extract) d with
      | none => rfl
      | some b => rw [hl] at hin; simp at hin
    rw [hnone]
    simp [lookupKey]

lemma orphan_fold_mono (b64 : GeomKey → Option String) :
    ∀ (l : List Element) (d : BundleDict) (k : GeomKey),
    (lookupKey k d).isSome = true →
    (lookupKey k (l.foldl (orphanStep b64) d)).isSome = true := by
  intro l
  induction l with
  | nil => intro d k h; exact h
  | cons e rest ih =>
    intro d k h
    exact ih _ _ (orphanStep_mono b64 d e k h)

lemma orphan_fold_complete (b64 : GeomKey → Option String) :
    ∀ (l : List Element) (d : BundleDict) (el : Element), el ∈ l →
    ∀ (p : Nat) (cA : CoordsAttr), el.metadata.page_number = some p →
    el.metadata.coordinates = some cA →
    (lookupKey (p, coordsForKey cA.extract)
      (l.foldl (orphanStep b64) d)).isSome = true := by
  intro l
  induction l with
  | nil => intro d el h; simp at h
  | cons e rest ih =>
    intro d el hmem p cA hp hc
    rcases List.mem_cons.mp hmem with he | he
    · subst he
      exact orphan_fold_mono b64 rest _ _ (orphanStep_achieves b64 d el hp hc)
    · exact ih _ el he p cA hp hc

lemma length_le_of_nodup_subset {l₁ l₂ : List GeomKey} (hn : l₁.Nodup)
    (hs : ∀ x ∈ l₁, x ∈ l₂) : l₁.length ≤ l₂.length := by
  calc l₁.length = l₁.toFinset.card := (List.toFinset_card_of_nodup hn).symm
    _ ≤ l₂.toFinset.card := Finset.card_le_card (fun x hx =>
        List.mem_toFinset.mpr (hs x (List.mem_toFinset.mp hx)))
    _ ≤ l₂.length := l₂.toFinset_card_le

/-- C4: the bundle map has unique keys (each image region appears in
exactly one bundle — captioned or orphaned, never both); every `Image`
element carrying page and coordinate metadata has its GeometryKey present
in the final map (never omitted); every bundle holds the base64
dictionary's payload for its key, or the empty payload with empty caption
text when the dictionary has none; and the map's cardinality is at most
the number of `Image` elements. -/
theorem generate_bundles_complete (raw : List Element)
    (b64 : GeomKey → Option String) :
    (keysOf (generate_caption_image_page_number raw b64)).Nodup
    ∧ (∀ el ∈ raw, el.category = "Image" →
        ∀ k, elementImageKey el = some k →
        (lookupKey k (generate_caption_image_page_number raw b64)).isSome = true)
    ∧ (∀ kv ∈ generate_caption_image_page_number raw b64,
        b64 kv.1 = some kv.2.base64_data
        ∨ (kv.2.base64_data = "" ∧ kv.2.caption_text = "" ∧ b64 kv.1 = none))
    ∧ (generate_caption_image_page_number raw b64).length
        ≤ (raw.filter (fun el => el.category == "Image")).length := by
  have hinv : dictInv b64 (raw.filter (fun el => el.category == "Image"))
      (generate_caption_image_page_number raw b64) := by
    rw [generate_caption_image_page_number_eq]
    apply orphan_fold_inv _ _ _ (fun x hx => hx)
    apply caption_fold_inv
    exact ⟨List.nodup_nil, by simp [keysOf], by simp⟩
  obtain ⟨hn, hs, hco⟩ := hinv
  refine ⟨hn, ?_, hco, ?_⟩
  · intro el hel hcat k hk
    have hmem : el ∈ raw.filter (fun el => el.category == "Image") :=
      List.mem_filter.mpr ⟨hel, by simp [hcat]⟩
    unfold elementImageKey at hk
    cases hp : el.metadata.page_number with
    | none => rw [hp] at hk; simp at hk
    | some p =>
      cases hc : el.metadata.coordinates with
      | none => rw [hp, hc] at hk; simp at hk
      | some cA =>
        rw [hp, hc] at hk
        have hkval : k = (p, coordsForKey cA.extract) := by
          simpa using hk.symm
        subst hkval
        rw [generate_caption_image_page_number_eq]
        exact orphan_fold_complete b64 _ _ el hmem p cA hp hc
  · have hlen : (generate_caption_image_page_number raw b64).length
        = (keysOf (generate_caption_image_page_number raw b64)).length := by
      simp [keysOf]
    rw [hlen]
    calc (keysOf (generate_caption_image_page_number raw b64)).length
        ≤ (imageKeys (raw.filter (fun el => el.category == "Image"))).length :=
          length_le_of_nodup_subset hn hs
      _ ≤ (raw.filter (fun el => el.category == "Image")).length :=
          List.length_filterMap_le _ _

/-- An image element with page and coordinate metadata. -/
def exImgEl : Element :=
  ⟨"Image", "",
   ⟨some 1, some (.withPoints (.clist [.plist 0 0, .plist 2 2])), some "p.png", ""⟩⟩

/-- Witness for C4: a single image with no caption and no payload still
ends up in the map (as an orphan bundle) under its canonical key. -/
theorem generate_bundles_complete_witness :
    (lookupKey (1, .ctuple [.ptuple 0 0, .ptuple 2 2])
      (generate_caption_image_page_number [exImgEl] (fun _ => none))).isSome = true :=
  (generate_bundles_complete [exImgEl] (fun _ => none)).2.1 exImgEl
    (List.mem_singleton.mpr rfl) rfl (1, .ctuple [.ptuple 0 0, .ptuple 2 2]) rfl

end RagPipeline
